import Mathlib

/-!
Verification of the record-processing core of the `woodlawn-email-report`
extractor (TypeScript).  JavaScript strings are modelled as `List Char`
(abbreviated `Str`), JavaScript numbers as `ℚ` (all prices handled by the
pipeline are exactly representable decimals), `NaN` results as `none` of an
`Option`, and `Date` values as `Option Int` millisecond timestamps (with the
process timezone fixed to UTC, as in the production container).  Each
definition is a direct translation of the correspondingly named function of
the repository.
-/

/-- JavaScript strings, modelled as lists of characters. -/
abbrev Str := List Char

/-! ## Generic string helpers (JS `String.prototype` methods) -/

/-- JS `trim`: drop whitespace from both ends. -/
def trimStr (l : Str) : Str :=
  ((l.dropWhile Char.isWhitespace).reverse.dropWhile Char.isWhitespace).reverse

/-- JS `toLowerCase` (ASCII, which covers every vocabulary this code matches). -/
def toLowerStr (l : Str) : Str := l.map Char.toLower

/-- JS `toUpperCase` (ASCII). -/
def toUpperStr (l : Str) : Str := l.map Char.toUpper

/-- Worker for `collapseWs`: the flag records whether the previous character
was whitespace (so a run is replaced by a single space). -/
def collapseWsGo : Bool → Str → Str
  | _, [] => []
  | inWs, c :: rest =>
    if c.isWhitespace then
      if inWs then collapseWsGo true rest else ' ' :: collapseWsGo true rest
    else c :: collapseWsGo false rest

/-- JS `replace(/\s+/g, ' ')`: collapse each whitespace run to one space. -/
def collapseWs (l : Str) : Str := collapseWsGo false l

/-- JS `includes`: substring test. -/
def containsSub (needle : Str) : Str → Bool
  | [] => needle.isEmpty
  | c :: rest => List.isPrefixOf needle (c :: rest) || containsSub needle rest

/-- Replace the first occurrence of `needle` (JS `replace` with a string
pattern) by nothing, i.e. delete it; used for `lastPart.replace(match, '')`. -/
def removeFirst (needle : Str) : Str → Str
  | [] => []
  | c :: rest =>
    if List.isPrefixOf needle (c :: rest) then (c :: rest).drop needle.length
    else c :: removeFirst needle rest

/-- Split on a separator character, JS `split(sep)` (always non-empty). -/
def splitOnChar (sep : Char) : Str → List Str
  | [] => [[]]
  | c :: rest =>
    if c = sep then [] :: splitOnChar sep rest
    else
      match splitOnChar sep rest with
      | [] => [[c]]
      | h :: t => (c :: h) :: t

/-- Inverse of `splitOnChar`: re-join the pieces with the separator. -/
def joinWithChar (sep : Char) : List Str → Str
  | [] => []
  | [x] => x
  | x :: xs => x ++ sep :: joinWithChar sep xs

/-- JS `join(', ')` on a list of strings. -/
def joinCommaSpace : List Str → Str
  | [] => []
  | [x] => x
  | x :: xs => x ++ ',' :: ' ' :: joinCommaSpace xs

/-- JS `padStart(2, '0')`. -/
def padTwo (l : Str) : Str :=
  if 2 ≤ l.length then l else List.replicate (2 - l.length) '0' ++ l

/-- Longest digit run at the front of the string, with the remainder. -/
def spanDigits : Str → Str × Str
  | [] => ([], [])
  | c :: rest =>
    if c.isDigit then
      let (a, b) := spanDigits rest
      (c :: a, b)
    else ([], c :: rest)

/-- Value of a digit string (most significant first). -/
def digitsToNat (l : Str) : Nat :=
  l.foldl (fun a c => a * 10 + (c.toNat - '0'.toNat)) 0

/-- Non-empty all-digit string (regex `\d\x2b`). -/
def isDigitsB (l : Str) : Bool := !l.isEmpty && l.all Char.isDigit

/-- ASCII letter, what `[A-Z]` matches under the `/i` flag. -/
def isAsciiAlpha (c : Char) : Bool :=
  ('A' ≤ c && c ≤ 'Z') || ('a' ≤ c && c ≤ 'z')

/-! ## JS number parsing

`parseFloat` parses the longest numeric prefix (sign, digits, optional
fraction, optional exponent) and ignores the rest; `Number` requires the
whole (trimmed) string to be numeric and maps the empty string to `0`.
`none` stands for `NaN`.  (Hexadecimal literals and `Infinity`, which the
scraped inputs never produce, are modelled as `NaN`.) -/

/-- Unsigned decimal literal with optional exponent; returns the value and
the unconsumed remainder, or `none` when no digits are present. -/
def parseUnsigned (l : Str) : Option (ℚ × Str) :=
  let (ip, r1) := spanDigits l
  let (fp, r2) :=
    match r1 with
    | '.' :: rest => spanDigits rest
    | _ => ([], r1)
  if ip.isEmpty && fp.isEmpty then none
  else
    let mant : ℚ :=
      if fp.isEmpty then (digitsToNat ip : ℚ)
      else (digitsToNat ip : ℚ) + (digitsToNat fp : ℚ) / (10 : ℚ) ^ fp.length
    match r2 with
    | c :: rest =>
      if c = 'e' ∨ c = 'E' then
        let (esign, r3) : Int × Str :=
          match rest with
          | '+' :: rr => (1, rr)
          | '-' :: rr => (-1, rr)
          | _ => (1, rest)
        let (ed, r4) := spanDigits r3
        if ed.isEmpty then some (mant, r2)
        else some (mant * (10 : ℚ) ^ (esign * (digitsToNat ed : Int)), r4)
      else some (mant, r2)
    | [] => some (mant, [])

/-- Signed decimal literal (prefix parse). -/
def parseSigned (l : Str) : Option (ℚ × Str) :=
  match l with
  | [] => none
  | c :: rest =>
    if c = '-' then (parseUnsigned rest).map fun p => (-p.1, p.2)
    else if c = '+' then parseUnsigned rest
    else parseUnsigned (c :: rest)

/-- JS `parseFloat`: skip leading whitespace, parse the longest numeric
prefix, `NaN` (`none`) when there is none. -/
def jsParseFloat (l : Str) : Option ℚ :=
  (parseSigned (l.dropWhile Char.isWhitespace)).map Prod.fst

/-- JS `Number(string)`: trims, maps the empty string to `0`, and requires
the whole remainder to be numeric. -/
def jsNumber (l : Str) : Option ℚ :=
  let t := trimStr l
  if t.isEmpty then some 0
  else
    match parseSigned t with
    | some (q, []) => some q
    | _ => none

/-- Truncation toward zero (ECMA `ToIntegerOrInfinity` on finite values). -/
def truncRat (q : ℚ) : Int := q.num / (q.den : Int)

/-! ## Dates

A valid `Date` is an `Int` count of milliseconds since the Unix epoch;
`none` is an Invalid Date (every comparison against it is false, as in JS).
The process runs with TZ=UTC, so local-time and UTC construction coincide. -/

/-- Days since 1970-01-01 of the civil date `(y, m, d)` with `m` in 1..12
(`d` may be out of range; JS lets it roll over). -/
def daysFromCivil (y m d : Int) : Int :=
  let y' := if m ≤ 2 then y - 1 else y
  let era := Int.fdiv y' 400
  let yoe := y' - era * 400
  let mp := Int.emod (m + 9) 12
  let doy := (153 * mp + 2) / 5 + d - 1
  let doe := yoe * 365 + yoe / 4 - yoe / 100 + doy
  era * 146097 + doe - 719468

/-- ECMA `MakeDay`: month may be any integer and is folded into the year. -/
def makeDay (y m d : Int) : Int :=
  let ym := y + Int.fdiv m 12
  let mn := Int.emod m 12
  daysFromCivil ym (mn + 1) d

/-- Milliseconds per day. -/
def msPerDay : Int := 86400000

/-- ECMA `TimeClip` bound. -/
def maxTimeValue : Int := 8640000000000000

/-- `new Date(year, month, day)` (already-truncated integer arguments, local
midnight, TZ=UTC): includes the two-digit-year rule and `TimeClip`. -/
def jsDateFromComponents (y m d : Int) : Option Int :=
  let yr := if 0 ≤ y ∧ y ≤ 99 then 1900 + y else y
  let ms := makeDay yr m d * msPerDay
  if ms < -maxTimeValue ∨ maxTimeValue < ms then none else some ms

/-- Whether `y`, `m`, `d` name a real calendar date (used by the V8 ISO
string parser, which rejects out-of-calendar days). -/
def validCivil (y m d : Int) : Bool :=
  let leap := y % 4 = 0 ∧ (y % 100 ≠ 0 ∨ y % 400 = 0)
  let dim : Int :=
    if m = 1 then 31 else if m = 2 then (if leap then 29 else 28)
    else if m = 3 then 31 else if m = 4 then 30 else if m = 5 then 31
    else if m = 6 then 30 else if m = 7 then 31 else if m = 8 then 31
    else if m = 9 then 30 else if m = 10 then 31 else if m = 11 then 30
    else 31
  decide (1 ≤ m) && decide (m ≤ 12) && decide (1 ≤ d) && decide (d ≤ dim)

/-- `new Date(isoString)` for a `YYYY-MM-DD` date-only string (parsed as UTC
midnight); anything else the sale-date path can produce is an Invalid Date. -/
def jsDateParseIso (s : Str) : Option Int :=
  match splitOnChar '-' s with
  | [ys, ms, ds] =>
    if isDigitsB ys && decide (ys.length = 4) && isDigitsB ms && decide (ms.length = 2)
        && isDigitsB ds && decide (ds.length = 2) then
      let y : Int := digitsToNat ys
      let m : Int := digitsToNat ms
      let d : Int := digitsToNat ds
      if validCivil y m d then some (daysFromCivil y m d * msPerDay) else none
    else none
  | _ => none

/-! ## `src/scraper/parcel-details.ts`: price and date normalizers -/

/-- Exactly the strings matched by the regex
`(\d\x7b1,2\x7d)/(\d\x7b1,2\x7d)/(\d\x7b4\x7d)` anchored at both ends,
decomposed into the three capture groups. -/
def matchMDY (s : Str) : Option (Str × Str × Str) :=
  match splitOnChar '/' s with
  | [m, d, y] =>
    if isDigitsB m && decide (m.length ≤ 2) && isDigitsB d && decide (d.length ≤ 2)
        && isDigitsB y && decide (y.length = 4) then
      some (m, d, y)
    else none
  | _ => none

/-- The anchored regex `\d\x7b4\x7d-\d\x7b2\x7d-\d\x7b2\x7d`. -/
def isIsoShape (s : Str) : Bool :=
  match splitOnChar '-' s with
  | [y, m, d] =>
    isDigitsB y && decide (y.length = 4) && isDigitsB m && decide (m.length = 2)
      && isDigitsB d && decide (d.length = 2)
  | _ => false

/-- `parseSaleDate`: `M/D/YYYY` is zero-padded into ISO `YYYY-MM-DD`; an
already-ISO string, and any string matching neither pattern, is returned
unchanged (the empty string stays empty). -/
def parseSaleDate (s : Str) : Str :=
  if s.isEmpty then []
  else
    match matchMDY s with
    | some (m, d, y) => y ++ '-' :: (padTwo m ++ '-' :: padTwo d)
    | none => if isIsoShape s then s else s

/-- The `replace(/[$,\s]/g, '')` step of `parseSalePrice`. -/
def stripCurrency (l : Str) : Str :=
  l.filter fun c => !(c = '$' || c = ',' || c.isWhitespace)

/-- `parseSalePrice`: strip `$`, commas and whitespace, `parseFloat`, and
`0` for `NaN`. -/
def parseSalePrice (priceStr : Str) : ℚ :=
  if priceStr.isEmpty then 0
  else
    match jsParseFloat (stripCurrency priceStr) with
    | none => 0
    | some q => q

/-- `isSaleInDateRange` (parcel-details.ts): normalize through
`parseSaleDate`, `new Date(iso)`, then compare against the two bounds;
an empty or invalid date is never in range. -/
def isSaleInDateRange (saleDateStr : Str) (startDate endDate : Int) : Bool :=
  let isoDate := parseSaleDate saleDateStr
  if isoDate.isEmpty then false
  else
    match jsDateParseIso isoDate with
    | none => false
    | some t => decide (startDate ≤ t) && decide (t ≤ endDate)

/-! ## `src/utils/date-range.ts` -/

/-- A date range: `start`/`end` are millisecond timestamps (`Date` values),
plus a display label. -/
structure DateRange where
  start : Int
  stop : Int
  label : Str
deriving DecidableEq

/-- `parseDate` (date-range.ts): split on `-`, convert each part with
`Number`, and build `new Date(year, month - 1, day)`.  A missing component
is `undefined`, hence `NaN`. -/
def parseDate (dateStr : Str) : Option Int :=
  let parts := (splitOnChar '-' dateStr).map jsNumber
  match parts.getD 0 none, parts.getD 1 none, parts.getD 2 none with
  | some y, some mo, some d =>
    jsDateFromComponents (truncRat y) (truncRat (mo - 1)) (truncRat d)
  | _, _, _ => none

/-- `isDateInRange` (string argument, as the filter calls it): an invalid
date compares false on both bounds. -/
def isDateInRange (dateStr : Str) (range : DateRange) : Bool :=
  match parseDate dateStr with
  | none => false
  | some d => decide (range.start ≤ d) && decide (d ≤ range.stop)

/-! ## Data model (`src/types/index.ts`) -/

/-- One scraped sale candidate (pre-filter). -/
structure RawParcelRecord where
  parcel_id : Str
  owner_name : Str
  property_address : Str
  city : Str
  zip : Str
  classification : Str
  land_use : Str
  acreage : Str
  assessed_value : Str
  sale_date : Str
  sale_price : Str
  deed_instrument : Str
  qualified_sale : Str
  source_url : Str
deriving DecidableEq

/-- Canonical output record.  `owner_name`/`owner_mailing_address` are
nullable (`Option`). -/
structure CleanedSale where
  parcel_id : Str
  situs_address : Str
  city : Str
  state : Str
  zip : Str
  owner_name : Option Str
  owner_mailing_address : Option Str
  sale_date : Str
  sale_price : ℚ
  deed_instrument : Str
  land_use : Str
  source_url : Str
  extracted_at : Str
deriving DecidableEq

/-- One historical transaction row from a parcel's detail page. -/
structure SaleRecord where
  sale_date : Str
  sale_price : Str
  deed_instrument : Str
  grantor : Str
  grantee : Str
  qualified_sale : Str
  book_page : Str
deriving DecidableEq

/-- Detail-page view of one parcel. -/
structure ParcelDetails where
  parcel_id : Str
  owner_name : Str
  owner_mailing_address : Str
  property_address : Str
  city : Str
  zip : Str
  classification : Str
  land_use : Str
  sales : List SaleRecord
  source_url : Str
deriving DecidableEq

/-- The slice of `ExtractorConfig` the filter consumes (the remaining
fields configure I/O, browser and email plumbing outside this core). -/
structure ExtractorConfig where
  minSalePrice : ℚ
  instrumentDenylist : List Str
deriving DecidableEq

/-! ## `src/processors/filter.ts` -/

/-- The rejection categories of `FilterReasons`. -/
inductive FilterReason where
  | lowSalePrice
  | deniedInstrument
  | outsideDateRange
  | nonResidential
  | qualifiedSaleFailed
  | other
deriving DecidableEq

/-- Aggregate rejection counts. -/
structure FilterReasons where
  lowSalePrice : Nat
  deniedInstrument : Nat
  outsideDateRange : Nat
  nonResidential : Nat
  qualifiedSaleFailed : Nat
  other : Nat
deriving DecidableEq

/-- The all-zero initial `reasons` object. -/
def zeroReasons : FilterReasons := ⟨0, 0, 0, 0, 0, 0⟩

/-- `reasons[reason]++`. -/
def bumpReason (k : FilterReason) (rs : FilterReasons) : FilterReasons :=
  match k with
  | .lowSalePrice => { rs with lowSalePrice := rs.lowSalePrice + 1 }
  | .deniedInstrument => { rs with deniedInstrument := rs.deniedInstrument + 1 }
  | .outsideDateRange => { rs with outsideDateRange := rs.outsideDateRange + 1 }
  | .nonResidential => { rs with nonResidential := rs.nonResidential + 1 }
  | .qualifiedSaleFailed => { rs with qualifiedSaleFailed := rs.qualifiedSaleFailed + 1 }
  | .other => { rs with other := rs.other + 1 }

/-- Projection of the count for one category. -/
def reasonCount (k : FilterReason) (rs : FilterReasons) : Nat :=
  match k with
  | .lowSalePrice => rs.lowSalePrice
  | .deniedInstrument => rs.deniedInstrument
  | .outsideDateRange => rs.outsideDateRange
  | .nonResidential => rs.nonResidential
  | .qualifiedSaleFailed => rs.qualifiedSaleFailed
  | .other => rs.other

/-- `isDeniedInstrument`: case-insensitive substring test against the
denylist; the empty instrument is never denied. -/
def isDeniedInstrument (instrument : Str) (denylist : List Str) : Bool :=
  if instrument.isEmpty then false
  else
    let normalized := trimStr (toLowerStr instrument)
    denylist.any fun denied => containsSub (toLowerStr denied) normalized

/-- `isResidential`: classification `00` or text containing `residential`,
else a land-use vocabulary match. -/
def isResidential (record : RawParcelRecord) : Bool :=
  let classification := trimStr record.classification
  if classification = "00".data || containsSub "residential".data (toLowerStr classification) then
    true
  else
    let landUse := toLowerStr record.land_use
    let residentialTerms := ["residential".data, "single family".data, "sfr".data,
      "duplex".data, "townhouse".data, "condo".data]
    residentialTerms.any fun term => containsSub term landUse

/-- The qualified-sale check of `filterRecords`: a present indicator equal
(lower-cased, trimmed) to a negative token. -/
def qualifiedNegative (record : RawParcelRecord) : Bool :=
  if record.qualified_sale.isEmpty then false
  else
    let qualified := trimStr (toLowerStr record.qualified_sale)
    qualified = "n".data || qualified = "no".data || qualified = "false".data
      || qualified = "0".data

/-- The body of the `filterRecords` loop for one record: the first check
that fails (in source order) sets `reason`; `none` means the record passes. -/
def recordReason (config : ExtractorConfig) (dateRange : DateRange)
    (record : RawParcelRecord) : Option FilterReason :=
  let saleDate := parseSaleDate record.sale_date
  if !saleDate.isEmpty && !isDateInRange saleDate dateRange then
    some .outsideDateRange
  else if !isResidential record then
    some .nonResidential
  else if decide (parseSalePrice record.sale_price < config.minSalePrice) then
    some .lowSalePrice
  else if isDeniedInstrument record.deed_instrument config.instrumentDenylist then
    some .deniedInstrument
  else if qualifiedNegative record then
    some .qualifiedSaleFailed
  else
    none

/-- Result of `filterRecords`. -/
structure FilterResult where
  passed : List RawParcelRecord
  filtered : List RawParcelRecord
  reasons : FilterReasons
deriving DecidableEq

/-- `filterRecords`: partition the records in order, counting one reason per
rejected record. -/
def filterRecords (records : List RawParcelRecord) (config : ExtractorConfig)
    (dateRange : DateRange) : FilterResult :=
  match records with
  | [] => ⟨[], [], zeroReasons⟩
  | record :: rest =>
    let res := filterRecords rest config dateRange
    match recordReason config dateRange record with
    | some k => ⟨res.passed, record :: res.filtered, bumpReason k res.reasons⟩
    | none => ⟨record :: res.passed, res.filtered, res.reasons⟩

/-- The five checks of the loop, indexed by the reason they record, as
boolean predicates (used to state the ordering guarantee). -/
def failsCheck (config : ExtractorConfig) (dateRange : DateRange) :
    FilterReason → RawParcelRecord → Bool
  | .outsideDateRange, record =>
    let saleDate := parseSaleDate record.sale_date
    !saleDate.isEmpty && !isDateInRange saleDate dateRange
  | .nonResidential, record => !isResidential record
  | .lowSalePrice, record => decide (parseSalePrice record.sale_price < config.minSalePrice)
  | .deniedInstrument, record =>
    isDeniedInstrument record.deed_instrument config.instrumentDenylist
  | .qualifiedSaleFailed, record => qualifiedNegative record
  | .other, _ => false

/-- The fixed priority order of the rejection checks. -/
def reasonOrder : List FilterReason :=
  [.outsideDateRange, .nonResidential, .lowSalePrice, .deniedInstrument, .qualifiedSaleFailed]

/-! ## `src/processors/transform.ts` -/

/-- Components returned by `parseAddress`. -/
structure ParsedAddress where
  street : Str
  city : Str
  state : Str
  zip : Str
deriving DecidableEq

/-- Attempt the regex `([A-Z]\x7b2\x7d)\s*(\d\x7b5\x7d(?:-\d\x7b4\x7d)?)?$`
(`/i`) at the head of `l`: two letters, greedy whitespace, then greedily a
10-character or 5-character zip or no zip, ending the string.  Returns
(matched text, state group, zip group or empty). -/
def stateZipHere (l : Str) : Option (Str × Str × Str) :=
  match l with
  | c1 :: c2 :: rest =>
    if isAsciiAlpha c1 && isAsciiAlpha c2 then
      let ws := rest.takeWhile Char.isWhitespace
      let r := rest.dropWhile Char.isWhitespace
      if decide (r.length = 10) && (r.take 5).all Char.isDigit && decide (r.getD 5 ' ' = '-')
          && (r.drop 6).all Char.isDigit then
        some (c1 :: c2 :: (ws ++ r), [c1, c2], r)
      else if decide (r.length = 5) && r.all Char.isDigit then
        some (c1 :: c2 :: (ws ++ r), [c1, c2], r)
      else if r.isEmpty then
        some (c1 :: c2 :: ws, [c1, c2], [])
      else none
    else none
  | _ => none

/-- Leftmost match of the state-zip regex (JS `match` scans positions left
to right; `$` anchors the tail). -/
def stateZipMatch : Str → Option (Str × Str × Str)
  | [] => none
  | c :: rest =>
    match stateZipHere (c :: rest) with
    | some r => some r
    | none => stateZipMatch rest

/-- `parseAddress`: split a `Street, City, ST ZIP` string into components,
with the documented fallbacks. -/
def parseAddress (fullAddress : Str) : ParsedAddress :=
  if fullAddress.isEmpty then ⟨[], [], [], []⟩
  else
    let parts := (splitOnChar ',' fullAddress).map trimStr
    if 2 ≤ parts.length then
      let street := parts.headD []
      let lastPart := parts.getLastD []
      match stateZipMatch lastPart with
      | some (matched, st, zp) =>
        let state := toUpperStr st
        let cityPart :=
          if 2 < parts.length then joinCommaSpace (parts.drop 1).dropLast
          else trimStr (removeFirst matched lastPart)
        ⟨street, cityPart, state, zp⟩
      | none => ⟨street, if 1 < parts.length then parts.getD 1 [] else [], "TN".data, []⟩
    else ⟨fullAddress, [], "TN".data, []⟩

/-- `cleanOwnerName`: trim, collapse whitespace, and strip characters
outside word characters, whitespace and common name punctuation. -/
def cleanOwnerName (name : Str) : Str :=
  if name.isEmpty then []
  else
    (collapseWs (trimStr name)).filter fun c =>
      c.isAlphanum || c = '_' || c.isWhitespace || c = ',' || c = '.'
        || c = Char.ofNat 39 || c = '&' || c = '-'

/-- `cleanAddress`: trim, collapse whitespace, uppercase. -/
def cleanAddress (address : Str) : Str :=
  if address.isEmpty then []
  else toUpperStr (collapseWs (trimStr address))

/-- `transformRecord`.  The `extracted_at` timestamp (`new Date()` in the
source) is passed in explicitly as `now`. -/
def transformRecord (now : Str) (record : RawParcelRecord) : CleanedSale :=
  let salePrice := parseSalePrice record.sale_price
  let saleDate := parseSaleDate record.sale_date
  let propertyAddress := cleanAddress record.property_address
  let city0 := trimStr record.city
  let zip0 := trimStr record.zip
  let (city1, zip1) :=
    if city0.isEmpty && containsSub ",".data propertyAddress then
      let parsed := parseAddress propertyAddress
      (if city0.isEmpty then parsed.city else city0, if zip0.isEmpty then parsed.zip else zip0)
    else (city0, zip0)
  let ownerName := cleanOwnerName record.owner_name
  { parcel_id := trimStr record.parcel_id
    situs_address := propertyAddress
    city := toUpperStr city1
    state := "TN".data
    zip := zip1
    owner_name := if ownerName.isEmpty then none else some ownerName
    owner_mailing_address := none
    sale_date := saleDate
    sale_price := salePrice
    deed_instrument := trimStr record.deed_instrument
    land_use :=
      if (trimStr record.land_use).isEmpty then trimStr record.classification
      else trimStr record.land_use
    source_url := record.source_url
    extracted_at := now }

/-- Summary statistics of `getSalesStats`. -/
structure SalesStats where
  count : Nat
  totalValue : ℚ
  averagePrice : ℚ
  medianPrice : ℚ
  minPrice : ℚ
  maxPrice : ℚ
deriving DecidableEq

/-- `getSalesStats`: all zeros on the empty list; otherwise sum, mean, and
median over the ascending-sorted prices. -/
def getSalesStats (sales : List CleanedSale) : SalesStats :=
  if sales.isEmpty then ⟨0, 0, 0, 0, 0, 0⟩
  else
    let prices := List.insertionSort (fun a b => a ≤ b) (sales.map CleanedSale.sale_price)
    let totalValue := prices.foldl (· + ·) 0
    let medianIndex := prices.length / 2
    let medianPrice :=
      if prices.length % 2 = 0 then
        (prices.getD (medianIndex - 1) 0 + prices.getD medianIndex 0) / 2
      else prices.getD medianIndex 0
    { count := sales.length
      totalValue := totalValue
      averagePrice := totalValue / (sales.length : ℚ)
      medianPrice := medianPrice
      minPrice := prices.getD 0 0
      maxPrice := prices.getD (prices.length - 1) 0 }

/-! ## `src/processors/dedupe.ts` -/

/-- `normalizeParcelId`: trim and collapse internal whitespace. -/
def normalizeParcelId (parcelId : Str) : Str := collapseWs (trimStr parcelId)

/-- Rendering of a JS number into a dedup-key fragment.  Integers (the only
prices this pipeline produces) print as in JS; other rationals use an
injective `num/den` stand-in for the JS shortest-round-trip decimal. -/
def ratToStr (q : ℚ) : Str :=
  let intStr : Int → Str := fun i =>
    if i < 0 then '-' :: Nat.toDigits 10 i.natAbs else Nat.toDigits 10 i.natAbs
  if q.den = 1 then intStr q.num
  else intStr q.num ++ '/' :: Nat.toDigits 10 q.den

/-- `generateCleanedSaleKey`: parcel id, address, date and price. -/
def generateCleanedSaleKey (sale : CleanedSale) : Str :=
  let parcelId := normalizeParcelId sale.parcel_id
  let address := toUpperStr (trimStr sale.situs_address)
  parcelId ++ '|' :: (address ++ '|' :: (sale.sale_date ++ '|' :: ratToStr sale.sale_price))

/-- `generateAddressKey`: address, city, date and price. -/
def generateAddressKey (sale : CleanedSale) : Str :=
  let address := toUpperStr (trimStr sale.situs_address)
  let city := toUpperStr (trimStr sale.city)
  address ++ '|' :: (city ++ '|' :: (sale.sale_date ++ '|' :: ratToStr sale.sale_price))

/-- The loop of `deduplicateCleanedSales`, carrying the two seen-key sets. -/
def dedupCleanedGo (seenByKey seenByAddress : List Str) : List CleanedSale → List CleanedSale
  | [] => []
  | sale :: rest =>
    let primaryKey := generateCleanedSaleKey sale
    let addressKey := generateAddressKey sale
    if primaryKey ∈ seenByKey ∨ addressKey ∈ seenByAddress then
      dedupCleanedGo seenByKey seenByAddress rest
    else
      sale :: dedupCleanedGo (primaryKey :: seenByKey) (addressKey :: seenByAddress) rest

/-- `deduplicateCleanedSales`: drop a sale when either its primary key or
its address key has been seen. -/
def deduplicateCleanedSales (sales : List CleanedSale) : List CleanedSale :=
  dedupCleanedGo [] [] sales

/-- Owner-and-address key of `deduplicateByOwnerAddress` (nullable owner,
`undefined`-to-empty as in the source). -/
def ownerAddrKey (sale : CleanedSale) : Str :=
  let owner := match sale.owner_name with
    | some n => toUpperStr (trimStr n)
    | none => []
  let address := toUpperStr (trimStr sale.situs_address)
  owner ++ '|' :: address

/-- JS `Map.prototype.set`: replace in place, or append a new binding. -/
def mapSet (k : Str) (v : CleanedSale) : List (Str × CleanedSale) → List (Str × CleanedSale)
  | [] => [(k, v)]
  | (k', v') :: t => if k' = k then (k, v) :: t else (k', v') :: mapSet k v t

/-- JS `Map.prototype.get`. -/
def mapGet (k : Str) : List (Str × CleanedSale) → Option CleanedSale
  | [] => none
  | (k', v') :: t => if k' = k then some v' else mapGet k t

/-- The loop of `deduplicateByOwnerAddress`: skip empty keys, insert new
keys, and replace the stored sale when the new one has a strictly higher
price. -/
def dedupOwnerGo (m : List (Str × CleanedSale)) : List CleanedSale → List (Str × CleanedSale)
  | [] => m
  | sale :: rest =>
    let key := ownerAddrKey sale
    if key = ['|'] then dedupOwnerGo m rest
    else
      match mapGet key m with
      | none => dedupOwnerGo (mapSet key sale m) rest
      | some existing =>
        if existing.sale_price < sale.sale_price then dedupOwnerGo (mapSet key sale m) rest
        else dedupOwnerGo m rest

/-- `deduplicateByOwnerAddress`: one survivor per owner+address key, the
highest-priced one, empty keys dropped. -/
def deduplicateByOwnerAddress (sales : List CleanedSale) : List CleanedSale :=
  (dedupOwnerGo [] sales).map Prod.snd

/-! ## `src/scraper/parcel-details.ts`: conversion to raw records -/

/-- `parcelDetailsToRawRecord`: one raw record from one sale-history row. -/
def parcelDetailsToRawRecord (details : ParcelDetails) (sale : SaleRecord) : RawParcelRecord :=
  { parcel_id := details.parcel_id
    owner_name := details.owner_name
    property_address := details.property_address
    city := details.city
    zip := details.zip
    classification := details.classification
    land_use := details.land_use
    acreage := []
    assessed_value := []
    sale_date := sale.sale_date
    sale_price := sale.sale_price
    deed_instrument := sale.deed_instrument
    qualified_sale := sale.qualified_sale
    source_url := details.source_url }

/-! ## `src/scraper/tpad-client.ts`: detail-enrichment reconciliation

The fetch itself is I/O; its outcome per parcel is an input here: `some
details` when `withRetry` resolved with a parse result, `none` when it
rejected (or resolved `null`).  Batching only affects scheduling — results
are consumed in entry order — so the loop is modelled directly. -/

/-- The inner loop over a detail page's sales: emit one enriched record per
sale whose date lies in the range. -/
def enrichSales (details : ParcelDetails) (dateRange : DateRange) :
    List SaleRecord → List RawParcelRecord
  | [] => []
  | sale :: rest =>
    if isSaleInDateRange sale.sale_date dateRange.start dateRange.stop then
      parcelDetailsToRawRecord details sale :: enrichSales details dateRange rest
    else enrichSales details dateRange rest

/-- The per-parcel branch of the step-5 loop of `TpadClient.extract`. -/
def emitForParcel (dateRange : DateRange) (allResults : List RawParcelRecord) :
    Str × Option ParcelDetails → List RawParcelRecord
  | (parcelId, some details) =>
    if 0 < details.sales.length then enrichSales details dateRange details.sales
    else
      match allResults.find? (fun r => r.parcel_id == parcelId) with
      | some originalRecord => [{ originalRecord with source_url := details.source_url }]
      | none => []
  | (parcelId, none) =>
    match allResults.find? (fun r => r.parcel_id == parcelId) with
    | some originalRecord => [originalRecord]
    | none => []

/-- The full step-5 loop: enrichment results in entry order. -/
def reconcileParcels (dateRange : DateRange) (allResults : List RawParcelRecord) :
    List (Str × Option ParcelDetails) → List RawParcelRecord
  | [] => []
  | entry :: rest =>
    emitForParcel dateRange allResults entry ++ reconcileParcels dateRange allResults rest

/-- The record set `extract` returns: the enriched records when any exist,
otherwise the collected search-result stubs. -/
def extractFinalRecords (dateRange : DateRange) (allResults : List RawParcelRecord)
    (entries : List (Str × Option ParcelDetails)) : List RawParcelRecord :=
  let enrichedRecords := reconcileParcels dateRange allResults entries
  if 0 < enrichedRecords.length then enrichedRecords else allResults

/-! ## `src/utils/retry.ts` -/

/-- `isNetworkRetryable`: the fixed list of timeout/connection-reset
message fragments, matched case-insensitively. -/
def isNetworkRetryable (message : Str) : Bool :=
  let retryableMessages := ["timeout".data, "ECONNRESET".data, "ECONNREFUSED".data,
    "ETIMEDOUT".data, "socket hang up".data, "network".data, "Navigation timeout".data,
    "Target closed".data, "Page closed".data]
  retryableMessages.any fun m => containsSub (toLowerStr m) (toLowerStr message)

/-- The `withRetry` loop from attempt number `attempt` with `remaining`
retries left.  `fn` gives the outcome of each attempt (errors are their
messages); the result is paired with the number of invocations made.
Backoff delays do not affect the outcome and are not modelled. -/
def withRetryFrom (fn : Nat → Except Str α) (isRetryable : Option (Str → Bool))
    (attempt : Nat) : Nat → Except Str α × Nat
  | 0 =>
    (match fn attempt with
     | .ok a => .ok a
     | .error e => .error e, 1)
  | remaining + 1 =>
    match fn attempt with
    | .ok a => (.ok a, 1)
    | .error e =>
      if (match isRetryable with | some f => !f e | none => false) then (.error e, 1)
      else
        let (res, n) := withRetryFrom fn isRetryable (attempt + 1) remaining
        (res, n + 1)

/-- `withRetry`: run from attempt 0 with `maxRetries` retries available. -/
def withRetry (fn : Nat → Except Str α) (maxRetries : Nat)
    (isRetryable : Option (Str → Bool)) : Except Str α × Nat :=
  withRetryFrom fn isRetryable 0 maxRetries

/-! ## Groundwork lemmas about the string helpers -/

theorem splitOnChar_ne_nil (sep : Char) (l : Str) : splitOnChar sep l ≠ [] := by
  induction l with
  | nil => simp [splitOnChar]
  | cons c rest ih =>
    simp only [splitOnChar]
    split
    · simp
    · cases h : splitOnChar sep rest with
      | nil => simp
      | cons h t => simp

theorem splitOnChar_noSep (sep : Char) (l : Str) (h : ∀ c ∈ l, c ≠ sep) :
    splitOnChar sep l = [l] := by
  induction l with
  | nil => rfl
  | cons c rest ih =>
    have hc : c ≠ sep := h c (by simp)
    have hrest : splitOnChar sep rest = [rest] := ih fun x hx => h x (by simp [hx])
    simp [splitOnChar, hc, hrest]

theorem splitOnChar_append (sep : Char) (m rest : Str) (h : ∀ c ∈ m, c ≠ sep) :
    splitOnChar sep (m ++ sep :: rest) = m :: splitOnChar sep rest := by
  induction m with
  | nil => simp [splitOnChar]
  | cons c ms ih =>
    have hc : c ≠ sep := h c (by simp)
    have hm : splitOnChar sep (ms ++ sep :: rest) = ms :: splitOnChar sep rest :=
      ih fun x hx => h x (by simp [hx])
    simp [splitOnChar, hc, hm]

theorem joinWithChar_splitOnChar (sep : Char) (l : Str) :
    joinWithChar sep (splitOnChar sep l) = l := by
  induction l with
  | nil => rfl
  | cons c rest ih =>
    simp only [splitOnChar]
    split
    · subst_eqs
      cases h : splitOnChar sep rest with
      | nil => exact absurd h (splitOnChar_ne_nil _ _)
      | cons x xs =>
        rw [h] at ih
        simpa [joinWithChar] using ih
    · cases h : splitOnChar sep rest with
      | nil => exact absurd h (splitOnChar_ne_nil _ _)
      | cons x xs =>
        rw [h] at ih
        cases xs with
        | nil => simpa [joinWithChar] using ih
        | cons z zs => simpa [joinWithChar] using ih

theorem digit_ne_slash {c : Char} (h : c.isDigit = true) : c ≠ '/' := by
  intro he; subst he; exact absurd h (by decide)

theorem digit_ne_dash {c : Char} (h : c.isDigit = true) : c ≠ '-' := by
  intro he; subst he; exact absurd h (by decide)

theorem isDigitsB_mem_isDigit {l : Str} (h : isDigitsB l = true) :
    ∀ c ∈ l, c.isDigit = true := by
  have := (Bool.and_eq_true _ _).mp h
  exact fun c hc => List.all_eq_true.mp this.2 c hc

theorem isDigitsB_ne_nil {l : Str} (h : isDigitsB l = true) : l ≠ [] := by
  have := (Bool.and_eq_true _ _).mp h
  cases l with
  | nil => simp [List.isEmpty] at this
  | cons c rest => simp

theorem matchMDY_of_parts (m d y : Str) (hm : isDigitsB m = true) (hm2 : m.length ≤ 2)
    (hd : isDigitsB d = true) (hd2 : d.length ≤ 2) (hy : isDigitsB y = true)
    (hy4 : y.length = 4) :
    matchMDY (m ++ '/' :: (d ++ '/' :: y)) = some (m, d, y) := by
  have hms : ∀ c ∈ m, c ≠ '/' := fun c hc => digit_ne_slash (isDigitsB_mem_isDigit hm c hc)
  have hds : ∀ c ∈ d, c ≠ '/' := fun c hc => digit_ne_slash (isDigitsB_mem_isDigit hd c hc)
  have hys : ∀ c ∈ y, c ≠ '/' := fun c hc => digit_ne_slash (isDigitsB_mem_isDigit hy c hc)
  have hsplit : splitOnChar '/' (m ++ '/' :: (d ++ '/' :: y)) = [m, d, y] := by
    rw [splitOnChar_append '/' m _ hms, splitOnChar_append '/' d _ hds,
      splitOnChar_noSep '/' y hys]
  simp [matchMDY, hsplit, hm, hm2, hd, hd2, hy, hy4]

theorem parseSaleDate_of_matchMDY_none {s : Str} (h : matchMDY s = none) :
    parseSaleDate s = s := by
  unfold parseSaleDate
  split
  · next he => simpa using (List.isEmpty_iff.mp he).symm
  · rw [h]; exact ite_self s

theorem isIsoShape_structure {s : Str} (h : isIsoShape s = true) :
    ∃ y m d, s = y ++ '-' :: (m ++ '-' :: d) ∧ isDigitsB y = true ∧ y.length = 4 ∧
      isDigitsB m = true ∧ m.length = 2 ∧ isDigitsB d = true ∧ d.length = 2 := by
  unfold isIsoShape at h
  split at h
  · next y m d heq =>
    refine ⟨y, m, d, ?_, ?_⟩
    · have := joinWithChar_splitOnChar '-' s
      rw [heq] at this
      simpa [joinWithChar] using this.symm
    · simp only [Bool.and_eq_true, decide_eq_true_eq] at h
      tauto
  · exact absurd h (by simp)

theorem matchMDY_of_isIsoShape {s : Str} (h : isIsoShape s = true) : matchMDY s = none := by
  obtain ⟨y, m, d, hs, hy, _, hm, _, hd, _⟩ := isIsoShape_structure h
  have hnos : ∀ c ∈ s, c ≠ '/' := by
    intro c hc
    rw [hs] at hc
    simp only [List.mem_append, List.mem_cons] at hc
    rcases hc with hc | hc | hc
    · exact digit_ne_slash (isDigitsB_mem_isDigit hy c hc)
    · subst hc; decide
    · rcases hc with hc | hc
      · exact digit_ne_slash (isDigitsB_mem_isDigit hm c hc)
      · rcases hc with hc | hc
        · subst hc; decide
        · exact digit_ne_slash (isDigitsB_mem_isDigit hd c hc)
  have hsplit : splitOnChar '/' s = [s] := splitOnChar_noSep '/' s hnos
  simp [matchMDY, hsplit]

/-- Claim C6: `parseSaleDate` maps every `M/D/YYYY` or `MM/DD/YYYY` string to
the zero-padded ISO form `YYYY-MM-DD`, returns a string already of ISO shape
unchanged, and returns every other string (garbage included) unchanged
without re-validation. -/
theorem parseSaleDate_spec :
    (∀ m d y : Str, isDigitsB m = true → m.length ≤ 2 → isDigitsB d = true →
        d.length ≤ 2 → isDigitsB y = true → y.length = 4 →
        parseSaleDate (m ++ '/' :: (d ++ '/' :: y)) = y ++ '-' :: (padTwo m ++ '-' :: padTwo d))
    ∧ (∀ s : Str, isIsoShape s = true → parseSaleDate s = s)
    ∧ (∀ s : Str, matchMDY s = none → parseSaleDate s = s) := by
  refine ⟨?_, ?_, fun s h => parseSaleDate_of_matchMDY_none h⟩
  · intro m d y hm hm2 hd hd2 hy hy4
    have hmatch := matchMDY_of_parts m d y hm hm2 hd hd2 hy hy4
    have hne : m ≠ [] := isDigitsB_ne_nil hm
    unfold parseSaleDate
    split
    · next he =>
      exact absurd (List.isEmpty_iff.mp he) (by cases m with
        | nil => exact absurd rfl hne
        | cons c cs => simp)
    · rw [hmatch]
  · intro s h
    exact parseSaleDate_of_matchMDY_none (matchMDY_of_isIsoShape h)

/-- Witness for C6 at the spec's own examples: `1/8/2025` zero-pads to
`2025-01-08`, an ISO string is unchanged, and garbage passes through. -/
theorem parseSaleDate_spec_witness :
    parseSaleDate "1/8/2025".data = "2025-01-08".data
    ∧ parseSaleDate "2025-01-08".data = "2025-01-08".data
    ∧ parseSaleDate "garbage".data = "garbage".data := by
  refine ⟨?_, ?_, ?_⟩
  · have h := parseSaleDate_spec.1 "1".data "8".data "2025".data
      (by decide) (by decide) (by decide) (by decide) (by decide) (by decide)
    exact h
  · exact parseSaleDate_spec.2.1 "2025-01-08".data (by decide)
  · exact parseSaleDate_spec.2.2 "garbage".data (by decide)

/-! ## Lemmas for claim C3 -/

theorem spanDigits_all {l : Str} (h : ∀ c ∈ l, c.isDigit = true) :
    spanDigits l = (l, []) := by
  induction l with
  | nil => rfl
  | cons c rest ih =>
    have hc : c.isDigit = true := h c (by simp)
    have hrest := ih fun x hx => h x (by simp [hx])
    simp [spanDigits, hc, hrest]

theorem digit_not_ws {c : Char} (h : c.isDigit = true) : c.isWhitespace = false := by
  cases hw : c.isWhitespace with
  | false => rfl
  | true =>
    exfalso
    simp only [Char.isWhitespace, Bool.or_eq_true, decide_eq_true_eq] at hw
    rcases hw with ((hw | hw) | hw) | hw <;> (subst hw; exact absurd h (by decide))

theorem parseUnsigned_digits {l : Str} (hne : l ≠ []) (h : ∀ c ∈ l, c.isDigit = true) :
    parseUnsigned l = some ((digitsToNat l : ℚ), []) := by
  have hspan := spanDigits_all h
  unfold parseUnsigned
  rw [hspan]
  have hemp : l.isEmpty = false := by cases l with
    | nil => exact absurd rfl hne
    | cons a b => rfl
  simp [hemp]

theorem parseSalePrice_digits {priceStr : Str}
    (h : ∀ c ∈ stripCurrency priceStr, c.isDigit = true) :
    parseSalePrice priceStr = (digitsToNat (stripCurrency priceStr) : ℚ) := by
  unfold parseSalePrice
  split
  · next he =>
    have : priceStr = [] := List.isEmpty_iff.mp he
    subst this
    simp [stripCurrency, digitsToNat]
  · cases hc : stripCurrency priceStr with
    | nil =>
      simp [jsParseFloat, parseSigned, digitsToNat]
    | cons c rest =>
      rw [hc] at h
      have hcd : c.isDigit = true := h c (by simp)
      have hdw : (c :: rest).dropWhile Char.isWhitespace = c :: rest := by
        rw [List.dropWhile_cons_of_neg]
        simp [digit_not_ws hcd]
      have hcdash : ¬ c = '-' := digit_ne_dash hcd
      have hcplus : ¬ c = '+' := by
        intro he; subst he; exact absurd hcd (by decide)
      have hpu := parseUnsigned_digits (l := c :: rest) (by simp) h
      simp [jsParseFloat, hdw, parseSigned, hcdash, hcplus, hpu]

theorem padTwo_length {l : Str} (h : l.length ≤ 2) : (padTwo l).length = 2 := by
  unfold padTwo
  split
  · omega
  · simp; omega

theorem padTwo_digits {l : Str} (h : ∀ c ∈ l, c.isDigit = true) :
    ∀ c ∈ padTwo l, c.isDigit = true := by
  unfold padTwo
  split
  · exact h
  · intro c hc
    rcases List.mem_append.mp hc with hc | hc
    · have := List.eq_of_mem_replicate hc
      subst this; decide
    · exact h c hc

theorem isDigitsB_of_parts {l : Str} (hne : l ≠ []) (h : ∀ c ∈ l, c.isDigit = true) :
    isDigitsB l = true := by
  unfold isDigitsB
  cases l with
  | nil => exact absurd rfl hne
  | cons c rest => simp_all [List.all_eq_true]

theorem isIsoShape_of_parts {y a b : Str} (hy : isDigitsB y = true) (hy4 : y.length = 4)
    (ha : isDigitsB a = true) (ha2 : a.length = 2) (hb : isDigitsB b = true)
    (hb2 : b.length = 2) : isIsoShape (y ++ '-' :: (a ++ '-' :: b)) = true := by
  have hys : ∀ c ∈ y, c ≠ '-' := fun c hc => digit_ne_dash (isDigitsB_mem_isDigit hy c hc)
  have has : ∀ c ∈ a, c ≠ '-' := fun c hc => digit_ne_dash (isDigitsB_mem_isDigit ha c hc)
  have hbs : ∀ c ∈ b, c ≠ '-' := fun c hc => digit_ne_dash (isDigitsB_mem_isDigit hb c hc)
  have hsplit : splitOnChar '-' (y ++ '-' :: (a ++ '-' :: b)) = [y, a, b] := by
    rw [splitOnChar_append '-' y _ hys, splitOnChar_append '-' a _ has,
      splitOnChar_noSep '-' b hbs]
  simp [isIsoShape, hsplit, hy, hy4, ha, ha2, hb, hb2]

theorem matchMDY_inv {s m d y : Str} (h : matchMDY s = some (m, d, y)) :
    isDigitsB m = true ∧ m.length ≤ 2 ∧ isDigitsB d = true ∧ d.length ≤ 2 ∧
      isDigitsB y = true ∧ y.length = 4 := by
  unfold matchMDY at h
  split at h
  · next heq =>
    split at h
    · next hcond =>
      simp only [Bool.and_eq_true, decide_eq_true_eq] at hcond
      cases h
      tauto
    · exact absurd h (by simp)
  · exact absurd h (by simp)

theorem matchMDY_nil : matchMDY ([] : Str) = none := by decide

theorem parseSaleDate_shape_of_parseable {s : Str}
    (h : matchMDY s ≠ none ∨ isIsoShape s = true ∨ s = []) :
    isIsoShape (parseSaleDate s) = true ∨ parseSaleDate s = [] := by
  rcases h with h | h | h
  · cases hm : matchMDY s with
    | none => exact absurd hm h
    | some t =>
      obtain ⟨m, d, y⟩ := t
      obtain ⟨h1, h2, h3, h4, h5, h6⟩ := matchMDY_inv hm
      have hsne : s ≠ [] := by
        intro he; subst he; rw [matchMDY_nil] at hm; cases hm
      left
      unfold parseSaleDate
      split
      · next he => exact absurd (List.isEmpty_iff.mp he) hsne
      · rw [hm]
        exact isIsoShape_of_parts h5 h6
          (isDigitsB_of_parts (by
            intro he
            have := padTwo_length h2
            rw [he] at this
            simp at this) (padTwo_digits (isDigitsB_mem_isDigit h1)))
          (padTwo_length h2)
          (isDigitsB_of_parts (by
            intro he
            have := padTwo_length h4
            rw [he] at this
            simp at this) (padTwo_digits (isDigitsB_mem_isDigit h3)))
          (padTwo_length h4)
  · left
    rw [parseSaleDate_of_matchMDY_none (matchMDY_of_isIsoShape h)]
    exact h
  · right
    subst h
    rfl

/-- The all-empty raw record, used to build concrete test records. -/
def emptyRaw : RawParcelRecord :=
  ⟨[], [], [], [], [], [], [], [], [], [], [], [], [], []⟩

/-- Counterexample to claim C3 as stated: a raw record whose price string is
`-100` produces a negative `sale_price`, and a garbage date passes through
`sale_date` (neither ISO-shaped nor empty). -/
theorem transformRecord_invariant_counterexample :
    (transformRecord [] { emptyRaw with
        sale_price := "-100".data, sale_date := "hello".data }).sale_price < 0
    ∧ (transformRecord [] { emptyRaw with
        sale_price := "-100".data, sale_date := "hello".data }).sale_date = "hello".data
    ∧ isIsoShape (transformRecord [] { emptyRaw with
        sale_price := "-100".data, sale_date := "hello".data }).sale_date = false
    ∧ (transformRecord [] { emptyRaw with
        sale_price := "-100".data, sale_date := "hello".data }).sale_date ≠ [] := by
  refine ⟨by decide, by decide, by decide, by decide⟩

/-- Claim C3 (amended): for every raw record, the `CleanedSale` produced by
`transformRecord` has a non-negative integer `sale_price` whenever the raw
price, stripped of `$`, commas and whitespace, is a digit string; its
`sale_date` is `YYYY-MM-DD`-shaped or empty whenever the raw date is empty
or matches `M/D/YYYY` or `YYYY-MM-DD` (otherwise the raw string passes
through); and `owner_name` and `owner_mailing_address` are `null`, never the
empty string, when absent. -/
theorem transformRecord_invariant_spec (now : Str) (record : RawParcelRecord) :
    ((∀ c ∈ stripCurrency record.sale_price, c.isDigit = true) →
      ∃ n : ℕ, (transformRecord now record).sale_price = (n : ℚ))
    ∧ (matchMDY record.sale_date ≠ none ∨ isIsoShape record.sale_date = true ∨
        record.sale_date = [] →
      isIsoShape (transformRecord now record).sale_date = true ∨
        (transformRecord now record).sale_date = [])
    ∧ (transformRecord now record).owner_name ≠ some []
    ∧ (transformRecord now record).owner_mailing_address = none := by
  refine ⟨?_, ?_, ?_, by simp [transformRecord]⟩
  · intro h
    refine ⟨digitsToNat (stripCurrency record.sale_price), ?_⟩
    have := parseSalePrice_digits h
    simpa [transformRecord] using this
  · intro h
    have hd : (transformRecord now record).sale_date = parseSaleDate record.sale_date := by
      simp [transformRecord]
    rw [hd]
    exact parseSaleDate_shape_of_parseable h
  · simp only [transformRecord]
    split
    · simp
    · next hne =>
      simp only [ne_eq, Option.some.injEq]
      intro he
      rw [he] at hne
      simp at hne

/-- Witness for C3 at a concrete record (price `500000`, date `1/8/2025`):
the cleaned price is the natural number and the cleaned date is ISO. -/
theorem transformRecord_invariant_spec_witness :
    (∃ n : ℕ, (transformRecord [] { emptyRaw with
        sale_price := "500000".data, sale_date := "1/8/2025".data }).sale_price = (n : ℚ))
    ∧ (isIsoShape (transformRecord [] { emptyRaw with
        sale_price := "500000".data, sale_date := "1/8/2025".data }).sale_date = true ∨
      (transformRecord [] { emptyRaw with
        sale_price := "500000".data, sale_date := "1/8/2025".data }).sale_date = []) :=
  ⟨(transformRecord_invariant_spec [] _).1 (by decide),
   (transformRecord_invariant_spec [] _).2.1 (Or.inl (by decide))⟩

/-! ## Lemmas for claim C2 -/

theorem recordReason_eq_find (config : ExtractorConfig) (dateRange : DateRange)
    (record : RawParcelRecord) :
    recordReason config dateRange record =
      List.find? (fun k => failsCheck config dateRange k record) reasonOrder := by
  unfold recordReason reasonOrder
  simp only [List.find?, failsCheck]
  cases h1 : (!(parseSaleDate record.sale_date).isEmpty &&
      !isDateInRange (parseSaleDate record.sale_date) dateRange) <;>
    cases h2 : !isResidential record <;>
    cases h3 : decide (parseSalePrice record.sale_price < config.minSalePrice) <;>
    cases h4 : isDeniedInstrument record.deed_instrument config.instrumentDenylist <;>
    cases h5 : qualifiedNegative record <;>
    simp [h1, h2, h3, h4, h5]

theorem recordReason_ne_other (config : ExtractorConfig) (dateRange : DateRange)
    (record : RawParcelRecord) :
    recordReason config dateRange record ≠ some .other := by
  rw [recordReason_eq_find]
  intro h
  have hmem := List.mem_of_find?_eq_some h
  simp [reasonOrder] at hmem

theorem reasonCount_bump (k k' : FilterReason) (rs : FilterReasons) :
    reasonCount k (bumpReason k' rs) =
      if k = k' then reasonCount k rs + 1 else reasonCount k rs := by
  cases k <;> cases k' <;> simp [bumpReason, reasonCount]

theorem filterRecords_passed (records : List RawParcelRecord) (config : ExtractorConfig)
    (dateRange : DateRange) :
    (filterRecords records config dateRange).passed =
      records.filter fun r => (recordReason config dateRange r).isNone := by
  induction records with
  | nil => rfl
  | cons r rest ih =>
    simp only [filterRecords, List.filter_cons]
    cases h : recordReason config dateRange r <;> simp [h, ih]

theorem filterRecords_filtered (records : List RawParcelRecord) (config : ExtractorConfig)
    (dateRange : DateRange) :
    (filterRecords records config dateRange).filtered =
      records.filter fun r => (recordReason config dateRange r).isSome := by
  induction records with
  | nil => rfl
  | cons r rest ih =>
    simp only [filterRecords, List.filter_cons]
    cases h : recordReason config dateRange r <;> simp [h, ih]

theorem filterRecords_count (records : List RawParcelRecord) (config : ExtractorConfig)
    (dateRange : DateRange) (k : FilterReason) :
    reasonCount k (filterRecords records config dateRange).reasons =
      (records.filter fun r => decide (recordReason config dateRange r = some k)).length := by
  induction records with
  | nil => cases k <;> rfl
  | cons r rest ih =>
    simp only [filterRecords, List.filter_cons]
    cases h : recordReason config dateRange r with
    | none => simpa [h] using ih
    | some k' =>
      by_cases hk : k = k'
      · subst hk
        simp [h, reasonCount_bump, List.length_cons, ih]
      · simp [h, reasonCount_bump, hk, ih, Ne.symm hk]

theorem filterRecords_other (records : List RawParcelRecord) (config : ExtractorConfig)
    (dateRange : DateRange) :
    (filterRecords records config dateRange).reasons.other = 0 := by
  have h := filterRecords_count records config dateRange .other
  have : (records.filter fun r =>
      decide (recordReason config dateRange r = some .other)) = [] := by
    apply List.filter_eq_nil_iff.mpr
    intro r _
    simp [recordReason_ne_other config dateRange r]
  rw [reasonCount] at h
  rw [h, this]
  rfl

/-- Sum of the five named rejection counters. -/
def fiveReasonSum (rs : FilterReasons) : Nat :=
  rs.outsideDateRange + rs.nonResidential + rs.lowSalePrice + rs.deniedInstrument
    + rs.qualifiedSaleFailed

theorem fiveReasonSum_bump (k : FilterReason) (hk : k ≠ .other) (rs : FilterReasons) :
    fiveReasonSum (bumpReason k rs) = fiveReasonSum rs + 1 := by
  cases k <;> simp [bumpReason, fiveReasonSum] <;> first | omega | exact absurd rfl hk

theorem filterRecords_sum (records : List RawParcelRecord) (config : ExtractorConfig)
    (dateRange : DateRange) :
    fiveReasonSum (filterRecords records config dateRange).reasons =
      (filterRecords records config dateRange).filtered.length := by
  induction records with
  | nil => rfl
  | cons r rest ih =>
    simp only [filterRecords]
    cases h : recordReason config dateRange r with
    | none => simpa using ih
    | some k =>
      have hk : k ≠ .other := by
        intro he; subst he
        exact recordReason_ne_other config dateRange r h
      simp [fiveReasonSum_bump k hk, ih]

/-- Claim C2: `filterRecords` evaluates the five checks in the fixed order
date-range, residential, minimum price, denied instrument, qualified-sale
flag, records for each rejected record exactly the first check (in that
order) that fails, passes a record failing none, and the returned aggregate
counts each rejected record once under that first-failing reason (the
`other` bucket stays zero and the five counters sum to the rejected
total). -/
theorem filterRecords_spec (records : List RawParcelRecord) (config : ExtractorConfig)
    (dateRange : DateRange) :
    (∀ r, recordReason config dateRange r =
      List.find? (fun k => failsCheck config dateRange k r) reasonOrder)
    ∧ (filterRecords records config dateRange).passed =
        records.filter (fun r => (recordReason config dateRange r).isNone)
    ∧ (filterRecords records config dateRange).filtered =
        records.filter (fun r => (recordReason config dateRange r).isSome)
    ∧ (∀ k ∈ reasonOrder,
        reasonCount k (filterRecords records config dateRange).reasons =
          (records.filter fun r =>
            decide (recordReason config dateRange r = some k)).length)
    ∧ (filterRecords records config dateRange).reasons.other = 0
    ∧ fiveReasonSum (filterRecords records config dateRange).reasons =
        (filterRecords records config dateRange).filtered.length :=
  ⟨fun r => recordReason_eq_find config dateRange r,
   filterRecords_passed records config dateRange,
   filterRecords_filtered records config dateRange,
   fun k _ => filterRecords_count records config dateRange k,
   filterRecords_other records config dateRange,
   filterRecords_sum records config dateRange⟩

/-! ## Claim C2 witness material -/

/-- Concrete config for the filter witnesses. -/
def c2Config : ExtractorConfig := ⟨10000, ["Quitclaim".data]⟩

/-- A record failing both the price check and the instrument check: only the
first-in-order reason (low price) may be counted. -/
def c2Record : RawParcelRecord :=
  { emptyRaw with
    classification := "00".data
    sale_price := "500".data
    deed_instrument := "Quitclaim".data }

/-- Witness for C2: the record failing price and instrument is counted once,
under `lowSalePrice`. -/
theorem filterRecords_spec_witness :
    reasonCount .lowSalePrice (filterRecords [c2Record] c2Config ⟨0, 0, []⟩).reasons = 1
    ∧ reasonCount .deniedInstrument
        (filterRecords [c2Record] c2Config ⟨0, 0, []⟩).reasons = 0 := by
  have h1 := (filterRecords_spec [c2Record] c2Config ⟨0, 0, []⟩).2.2.2.1 .lowSalePrice
    (by simp [reasonOrder])
  have h2 := (filterRecords_spec [c2Record] c2Config ⟨0, 0, []⟩).2.2.2.1 .deniedInstrument
    (by simp [reasonOrder])
  rw [h1, h2]
  constructor <;> decide

/-! ## Claim C10 -/

theorem parseSaleDate_ne_nil {s : Str} (h : s ≠ []) : parseSaleDate s ≠ [] := by
  unfold parseSaleDate
  split
  · next he => exact absurd (List.isEmpty_iff.mp he) h
  · split
    · simp
    · next hm => rw [ite_self]; exact h

/-- Claim C10 (amended): a record whose `sale_date` is empty is never
rejected with `outsideDateRange` (the date check is skipped); a record whose
`sale_date` is non-empty and whose normalized date `parseDate` cannot turn
into a valid `Date` (split on `-`, `Number` each part) is always rejected
with `outsideDateRange`. -/
theorem filter_date_predicate_spec (config : ExtractorConfig) (dateRange : DateRange)
    (record : RawParcelRecord) :
    (record.sale_date = [] →
      recordReason config dateRange record ≠ some .outsideDateRange)
    ∧ (record.sale_date ≠ [] → parseDate (parseSaleDate record.sale_date) = none →
      recordReason config dateRange record = some .outsideDateRange) := by
  constructor
  · intro h
    have hps : parseSaleDate record.sale_date = [] := by rw [h]; rfl
    unfold recordReason
    rw [hps]
    simp only [List.isEmpty_nil, Bool.not_true, Bool.false_and, Bool.false_eq_true,
      if_false]
    split
    · simp
    · split
      · simp
      · split
        · simp
        · split <;> simp
  · intro hne hpd
    have h1 : (parseSaleDate record.sale_date).isEmpty = false := by
      cases hh : parseSaleDate record.sale_date with
      | nil => exact absurd hh (parseSaleDate_ne_nil hne)
      | cons a b => rfl
    have h2 : isDateInRange (parseSaleDate record.sale_date) dateRange = false := by
      unfold isDateInRange
      rw [hpd]
    simp [recordReason, h1, h2]

/-- Configuration used for the C10 concrete records. -/
def c10Config : ExtractorConfig := ⟨10000, []⟩

/-- The week of Monday 2025-01-06 through Sunday 2025-01-12 (local = UTC
millisecond timestamps, the end at 23:59:59.999). -/
def c10Range : DateRange :=
  ⟨daysFromCivil 2025 1 6 * msPerDay, daysFromCivil 2025 1 12 * msPerDay + 86399999, []⟩

/-- A residential record priced 250000 whose sale date `2025-1-8` matches
neither `M/D/YYYY` nor `YYYY-MM-DD`. -/
def c10Record : RawParcelRecord :=
  { emptyRaw with
    classification := "00".data
    sale_price := "250000".data
    sale_date := "2025-1-8".data }

/-- Counterexample to claim C10 as stated: `2025-1-8` is non-empty and
matches neither date shape, yet `parseDate` still parses its pass-through
(`Number` accepts bare digit parts), the date lands in range, and the record
passes the filter instead of being rejected with `outsideDateRange`. -/
theorem filter_unparseable_date_counterexample :
    c10Record.sale_date ≠ []
    ∧ matchMDY c10Record.sale_date = none
    ∧ isIsoShape c10Record.sale_date = false
    ∧ recordReason c10Config c10Range c10Record = none := by
  refine ⟨by decide, by decide, by decide, ?_⟩
  have hs : parseSaleDate "2025-1-8".data = "2025-1-8".data := by decide
  have hsplit : (splitOnChar '-' "2025-1-8".data).map jsNumber =
      [some (2025 : ℚ), some 1, some 8] := by decide
  have hq1 : truncRat (2025 : ℚ) = 2025 := by decide
  have hq2 : truncRat ((1 : ℚ) - 1) = 0 := by norm_num [truncRat]
  have hq3 : truncRat (8 : ℚ) = 8 := by decide
  have hpd : parseDate "2025-1-8".data = some 1736294400000 := by
    simp only [parseDate, hsplit, List.getD_cons_zero, List.getD_cons_succ]
    rw [hq1, hq2, hq3]
    decide
  have hidr : isDateInRange "2025-1-8".data c10Range = true := by
    unfold isDateInRange
    rw [hpd]
    decide
  show recordReason c10Config c10Range c10Record = none
  unfold recordReason c10Record
  simp only [hs, hidr]
  decide

/-- Witness for C10: an empty-dated non-residential record is rejected for
`nonResidential`, never `outsideDateRange`; a `garbage`-dated record is
rejected with `outsideDateRange`. -/
theorem filter_date_predicate_spec_witness :
    (recordReason c10Config c10Range { emptyRaw with
        classification := "02".data
        land_use := "Commercial".data } ≠ some .outsideDateRange)
    ∧ recordReason c10Config c10Range { emptyRaw with
        classification := "00".data
        sale_price := "250000".data
        sale_date := "garbage".data } =
      some .outsideDateRange := by
  constructor
  · exact (filter_date_predicate_spec c10Config c10Range _).1 rfl
  · exact (filter_date_predicate_spec c10Config c10Range _).2 (by decide) (by decide)

/-! ## Claim C4: idempotence of `deduplicateCleanedSales` -/

theorem dedupCleanedGo_idem (sales : List CleanedSale) :
    ∀ seenByKey seenByAddress : List Str,
      dedupCleanedGo seenByKey seenByAddress
        (dedupCleanedGo seenByKey seenByAddress sales) =
      dedupCleanedGo seenByKey seenByAddress sales := by
  induction sales with
  | nil => intro s1 s2; rfl
  | cons sale rest ih =>
    intro s1 s2
    by_cases h : generateCleanedSaleKey sale ∈ s1 ∨ generateAddressKey sale ∈ s2
    · simp only [dedupCleanedGo, if_pos h]
      exact ih s1 s2
    · simp only [dedupCleanedGo, if_neg h]
      rw [ih (generateCleanedSaleKey sale :: s1) (generateAddressKey sale :: s2)]

/-- Claim C4: running `deduplicateCleanedSales` on its own output removes
nothing further — the function is idempotent. -/
theorem deduplicateCleanedSales_idempotent (sales : List CleanedSale) :
    deduplicateCleanedSales (deduplicateCleanedSales sales) =
      deduplicateCleanedSales sales :=
  dedupCleanedGo_idem sales [] []

/-! ## Lemmas for claim C5 -/

theorem mem_mapSet_self (k : Str) (v : CleanedSale) (m : List (Str × CleanedSale)) :
    (k, v) ∈ mapSet k v m := by
  induction m with
  | nil => simp [mapSet]
  | cons p t ih =>
    obtain ⟨k', v'⟩ := p
    by_cases h : k' = k
    · simp [mapSet, h]
    · simp only [mapSet, if_neg h]
      exact List.mem_cons_of_mem _ ih

theorem mem_mapSet (p : Str × CleanedSale) (k : Str) (v : CleanedSale)
    (m : List (Str × CleanedSale)) (h : p ∈ mapSet k v m) : p = (k, v) ∨ p ∈ m := by
  induction m with
  | nil => simpa [mapSet] using h
  | cons q t ih =>
    obtain ⟨k', v'⟩ := q
    by_cases hk : k' = k
    · rw [mapSet, if_pos hk] at h
      rcases List.mem_cons.mp h with h | h
      · exact Or.inl h
      · exact Or.inr (List.mem_cons_of_mem _ h)
    · rw [mapSet, if_neg hk] at h
      rcases List.mem_cons.mp h with h | h
      · exact Or.inr (by simp [h])
      · rcases ih h with h | h
        · exact Or.inl h
        · exact Or.inr (List.mem_cons_of_mem _ h)

theorem mem_mapSet_of_ne {k' : Str} {v' : CleanedSale} (k : Str) (v : CleanedSale)
    (m : List (Str × CleanedSale)) (hne : k' ≠ k) (h : (k', v') ∈ m) :
    (k', v') ∈ mapSet k v m := by
  induction m with
  | nil => cases h
  | cons q t ih =>
    obtain ⟨k0, v0⟩ := q
    by_cases hk : k0 = k
    · rw [mapSet, if_pos hk]
      rcases List.mem_cons.mp h with h | h
      · exact absurd (congrArg Prod.fst h) (by simpa [hk] using hne)
      · exact List.mem_cons_of_mem _ h
    · rw [mapSet, if_neg hk]
      rcases List.mem_cons.mp h with h | h
      · exact List.mem_cons.mpr (Or.inl h)
      · exact List.mem_cons_of_mem _ (ih h)

theorem mapGet_mem {k : Str} {v : CleanedSale} {m : List (Str × CleanedSale)}
    (h : mapGet k m = some v) : (k, v) ∈ m := by
  induction m with
  | nil => cases h
  | cons q t ih =>
    obtain ⟨k0, v0⟩ := q
    by_cases hk : k0 = k
    · rw [mapGet, if_pos hk] at h
      cases h
      simp [hk]
    · rw [mapGet, if_neg hk] at h
      exact List.mem_cons_of_mem _ (ih h)

theorem not_mem_of_mapGet_none {k : Str} {m : List (Str × CleanedSale)}
    (h : mapGet k m = none) : ∀ v, (k, v) ∉ m := by
  induction m with
  | nil => simp
  | cons q t ih =>
    obtain ⟨k0, v0⟩ := q
    by_cases hk : k0 = k
    · rw [mapGet, if_pos hk] at h
      cases h
    · rw [mapGet, if_neg hk] at h
      intro v hv
      rcases List.mem_cons.mp hv with hv | hv
      · exact hk (congrArg Prod.fst hv).symm
      · exact ih h v hv

theorem keys_mapSet_subset (k : Str) (v : CleanedSale) (m : List (Str × CleanedSale)) :
    ∀ x ∈ (mapSet k v m).map Prod.fst, x = k ∨ x ∈ m.map Prod.fst := by
  intro x hx
  rcases List.mem_map.mp hx with ⟨p, hp, hpx⟩
  rcases mem_mapSet p k v m hp with h | h
  · left; rw [← hpx, h]
  · right; exact List.mem_map.mpr ⟨p, h, hpx⟩

theorem nodup_keys_mapSet (k : Str) (v : CleanedSale) (m : List (Str × CleanedSale))
    (h : (m.map Prod.fst).Nodup) : ((mapSet k v m).map Prod.fst).Nodup := by
  induction m with
  | nil => simp [mapSet]
  | cons q t ih =>
    obtain ⟨k0, v0⟩ := q
    simp only [List.map_cons, List.nodup_cons] at h
    by_cases hk : k0 = k
    · rw [mapSet, if_pos hk]
      simp only [List.map_cons, List.nodup_cons]
      exact ⟨by rw [← hk]; exact h.1, h.2⟩
    · rw [mapSet, if_neg hk]
      simp only [List.map_cons, List.nodup_cons]
      refine ⟨?_, ih h.2⟩
      intro hmem
      rcases keys_mapSet_subset k v t k0 hmem with he | he
      · exact hk he
      · exact h.1 he

theorem mem_unique_of_nodup_keys {m : List (Str × CleanedSale)}
    (h : (m.map Prod.fst).Nodup) {k : Str} {v₀ v₁ : CleanedSale}
    (h0 : (k, v₀) ∈ m) (h1 : (k, v₁) ∈ m) : v₀ = v₁ := by
  induction m with
  | nil => cases h0
  | cons q t ih =>
    obtain ⟨k0, w⟩ := q
    simp only [List.map_cons, List.nodup_cons] at h
    rcases List.mem_cons.mp h0 with h0 | h0 <;> rcases List.mem_cons.mp h1 with h1 | h1
    · rw [((Prod.mk.injEq _ _ _ _).mp h0).2, ((Prod.mk.injEq _ _ _ _).mp h1).2]
    · exfalso
      obtain ⟨hk, -⟩ := (Prod.mk.injEq _ _ _ _).mp h0.symm
      exact h.1 (List.mem_map.mpr ⟨(k, v₁), h1, hk.symm ▸ rfl⟩)
    · exfalso
      obtain ⟨hk, -⟩ := (Prod.mk.injEq _ _ _ _).mp h1.symm
      exact h.1 (List.mem_map.mpr ⟨(k, v₀), h0, hk.symm ▸ rfl⟩)
    · exact ih h.2 h0 h1

theorem dedupOwnerGo_spec (sales : List CleanedSale) :
    ∀ m : List (Str × CleanedSale),
      (∀ p ∈ m, ownerAddrKey p.2 = p.1) →
      (m.map Prod.fst).Nodup →
      (∀ p ∈ m, p.1 ≠ ['|']) →
      (∀ p ∈ dedupOwnerGo m sales,
          ownerAddrKey p.2 = p.1 ∧ p.1 ≠ ['|'] ∧
          (∀ t ∈ sales, ownerAddrKey t = p.1 → t.sale_price ≤ p.2.sale_price) ∧
          (∀ v₀, (p.1, v₀) ∈ m → v₀.sale_price ≤ p.2.sale_price)) ∧
        ((dedupOwnerGo m sales).map Prod.fst).Nodup := by
  induction sales with
  | nil =>
    intro m hkey hnodup hbar
    refine ⟨?_, hnodup⟩
    intro p hp
    refine ⟨hkey p hp, hbar p hp, by simp, ?_⟩
    intro v₀ hv
    have hp2 : (p.1, p.2) ∈ m := by simpa using hp
    rw [mem_unique_of_nodup_keys hnodup hv hp2]
  | cons sale rest ih =>
    intro m hkey hnodup hbar
    by_cases hb : ownerAddrKey sale = ['|']
    · have hgo : dedupOwnerGo m (sale :: rest) = dedupOwnerGo m rest := by
        simp [dedupOwnerGo, hb]
      rw [hgo]
      obtain ⟨hmain, hnd⟩ := ih m hkey hnodup hbar
      refine ⟨?_, hnd⟩
      intro p hp
      obtain ⟨h1, h2, h3, h4⟩ := hmain p hp
      refine ⟨h1, h2, ?_, h4⟩
      intro t ht hkt
      rcases List.mem_cons.mp ht with ht | ht
      · subst ht
        rw [hb] at hkt
        exact absurd hkt.symm h2
      · exact h3 t ht hkt
    · cases hg : mapGet (ownerAddrKey sale) m with
      | none =>
        have hgo : dedupOwnerGo m (sale :: rest) =
            dedupOwnerGo (mapSet (ownerAddrKey sale) sale m) rest := by
          simp [dedupOwnerGo, hb, hg]
        rw [hgo]
        have hkey' : ∀ p ∈ mapSet (ownerAddrKey sale) sale m, ownerAddrKey p.2 = p.1 := by
          intro p hp
          rcases mem_mapSet p _ _ m hp with h | h
          · rw [h]
          · exact hkey p h
        have hnodup' := nodup_keys_mapSet (ownerAddrKey sale) sale m hnodup
        have hbar' : ∀ p ∈ mapSet (ownerAddrKey sale) sale m, p.1 ≠ ['|'] := by
          intro p hp
          rcases mem_mapSet p _ _ m hp with h | h
          · rw [h]; exact hb
          · exact hbar p h
        obtain ⟨hmain, hnd⟩ := ih _ hkey' hnodup' hbar'
        refine ⟨?_, hnd⟩
        intro p hp
        obtain ⟨h1, h2, h3, h4⟩ := hmain p hp
        refine ⟨h1, h2, ?_, ?_⟩
        · intro t ht hkt
          rcases List.mem_cons.mp ht with ht | ht
          · subst ht
            refine h4 t ?_
            rw [← hkt]
            exact mem_mapSet_self _ _ m
          · exact h3 t ht hkt
        · intro v₀ hv
          by_cases hpk : p.1 = ownerAddrKey sale
          · exfalso
            rw [hpk] at hv
            exact not_mem_of_mapGet_none hg v₀ hv
          · exact h4 v₀ (mem_mapSet_of_ne _ _ m hpk hv)
      | some existing =>
        by_cases hlt : existing.sale_price < sale.sale_price
        · have hgo : dedupOwnerGo m (sale :: rest) =
              dedupOwnerGo (mapSet (ownerAddrKey sale) sale m) rest := by
            simp [dedupOwnerGo, hb, hg, hlt]
          rw [hgo]
          have hkey' : ∀ p ∈ mapSet (ownerAddrKey sale) sale m, ownerAddrKey p.2 = p.1 := by
            intro p hp
            rcases mem_mapSet p _ _ m hp with h | h
            · rw [h]
            · exact hkey p h
          have hnodup' := nodup_keys_mapSet (ownerAddrKey sale) sale m hnodup
          have hbar' : ∀ p ∈ mapSet (ownerAddrKey sale) sale m, p.1 ≠ ['|'] := by
            intro p hp
            rcases mem_mapSet p _ _ m hp with h | h
            · rw [h]; exact hb
            · exact hbar p h
          obtain ⟨hmain, hnd⟩ := ih _ hkey' hnodup' hbar'
          refine ⟨?_, hnd⟩
          intro p hp
          obtain ⟨h1, h2, h3, h4⟩ := hmain p hp
          refine ⟨h1, h2, ?_, ?_⟩
          · intro t ht hkt
            rcases List.mem_cons.mp ht with ht | ht
            · subst ht
              refine h4 t ?_
              rw [← hkt]
              exact mem_mapSet_self _ _ m
            · exact h3 t ht hkt
          · intro v₀ hv
            by_cases hpk : p.1 = ownerAddrKey sale
            · have hsale : sale.sale_price ≤ p.2.sale_price := by
                refine h4 sale ?_
                rw [hpk]
                exact mem_mapSet_self _ _ m
              have hveq : v₀ = existing := by
                refine mem_unique_of_nodup_keys hnodup ?_ (mapGet_mem hg)
                rw [← hpk]
                exact hv
              rw [hveq]
              exact le_trans (le_of_lt hlt) hsale
            · exact h4 v₀ (mem_mapSet_of_ne _ _ m hpk hv)
        · have hgo : dedupOwnerGo m (sale :: rest) = dedupOwnerGo m rest := by
            simp [dedupOwnerGo, hb, hg, hlt]
          rw [hgo]
          obtain ⟨hmain, hnd⟩ := ih m hkey hnodup hbar
          refine ⟨?_, hnd⟩
          intro p hp
          obtain ⟨h1, h2, h3, h4⟩ := hmain p hp
          refine ⟨h1, h2, ?_, h4⟩
          intro t ht hkt
          rcases List.mem_cons.mp ht with ht | ht
          · subst ht
            have hex : existing.sale_price ≤ p.2.sale_price := by
              refine h4 existing ?_
              rw [← hkt]
              exact mapGet_mem hg
            exact le_trans (not_lt.mp hlt) hex
          · exact h3 t ht hkt

/-- Claim C5: `deduplicateByOwnerAddress` keeps at most one record per
owner+address key; every survivor has the maximal `sale_price` among the
input records sharing its key; and a record whose (trimmed, uppercased)
owner name and situs address are both empty — exactly those whose key is
the bare separator — never appears in the output. -/
theorem deduplicateByOwnerAddress_spec (sales : List CleanedSale) :
    ((deduplicateByOwnerAddress sales).map ownerAddrKey).Nodup
    ∧ (∀ s ∈ deduplicateByOwnerAddress sales,
        (∀ t ∈ sales, ownerAddrKey t = ownerAddrKey s → t.sale_price ≤ s.sale_price)
        ∧ ownerAddrKey s ≠ ['|'])
    ∧ (∀ s : CleanedSale, ownerAddrKey s = ['|'] ↔
        (match s.owner_name with | some n => toUpperStr (trimStr n) | none => ([] : Str)) = []
        ∧ toUpperStr (trimStr s.situs_address) = []) := by
  obtain ⟨hmain, hnd⟩ := dedupOwnerGo_spec sales [] (by simp) (by simp) (by simp)
  refine ⟨?_, ?_, ?_⟩
  · have heq : (deduplicateByOwnerAddress sales).map ownerAddrKey =
        (dedupOwnerGo [] sales).map Prod.fst := by
      unfold deduplicateByOwnerAddress
      rw [List.map_map]
      exact List.map_congr_left fun p hp => (hmain p hp).1
    rw [heq]
    exact hnd
  · intro s hs
    obtain ⟨p, hp, hps⟩ := List.mem_map.mp hs
    obtain ⟨h1, h2, h3, _⟩ := hmain p hp
    have hkey : ownerAddrKey s = p.1 := by rw [← hps]; exact h1
    constructor
    · intro t ht hkt
      rw [← hps]
      exact h3 t ht (by rw [hkt, hkey])
    · rw [hkey]; exact h2
  · intro s
    unfold ownerAddrKey
    cases ho : s.owner_name with
    | none => simp
    | some n =>
      simp only
      cases h : toUpperStr (trimStr n) with
      | nil => simp
      | cons c l => simp

/-- The all-empty cleaned sale, used to build concrete test records. -/
def emptyCleaned : CleanedSale :=
  ⟨[], [], [], [], [], none, none, [], 0, [], [], [], []⟩

/-- Duplicate owner+address priced 100000. -/
def c5Low : CleanedSale :=
  { emptyCleaned with
    owner_name := some "JOHN SMITH".data
    situs_address := "467 OWEN RD".data
    sale_price := 100000 }

/-- Duplicate owner+address priced 300000. -/
def c5High : CleanedSale :=
  { emptyCleaned with
    owner_name := some "JOHN SMITH".data
    situs_address := "467 OWEN RD".data
    sale_price := 300000 }

/-- Witness for C5 at the spec's example: of two records with the same owner
and address priced 100000 and 300000, plus one with empty owner and address,
the sole survivor is the 300000 record, and the theorem bounds the cheaper
record's price by the survivor's. -/
theorem deduplicateByOwnerAddress_spec_witness :
    deduplicateByOwnerAddress [c5Low, c5High, emptyCleaned] = [c5High]
    ∧ c5Low.sale_price ≤ c5High.sale_price := by
  refine ⟨by decide, ?_⟩
  have h := ((deduplicateByOwnerAddress_spec [c5Low, c5High, emptyCleaned]).2.1 c5High
    (by decide)).1
  exact h c5Low (by decide) (by decide)

/-! ## Lemmas for claim C8 -/

theorem foldl_add_eq_sum (l : List ℚ) : ∀ a : ℚ, l.foldl (· + ·) a = a + l.sum := by
  induction l with
  | nil => simp
  | cons x t ih =>
    intro a
    simp only [List.foldl_cons, List.sum_cons, ih, add_assoc]

theorem sorted_getD_zero_le {l : List ℚ} (hs : l.Sorted (fun a b => a ≤ b)) :
    ∀ x ∈ l, l.getD 0 0 ≤ x := by
  cases l with
  | nil => simp
  | cons a t =>
    intro x hx
    rcases List.mem_cons.mp hx with h | h
    · subst h; simp
    · simpa using List.rel_of_sorted_cons hs x h

theorem getD_mem_of_lt {l : List ℚ} {n : Nat} (h : n < l.length) : l.getD n 0 ∈ l := by
  rw [List.getD_eq_getElem _ _ h]
  exact List.getElem_mem h

theorem sorted_le_getD_last {l : List ℚ} (hs : l.Sorted (fun a b => a ≤ b)) :
    ∀ x ∈ l, x ≤ l.getD (l.length - 1) 0 := by
  induction l with
  | nil => simp
  | cons a t ih =>
    intro x hx
    cases t with
    | nil =>
      rw [List.mem_singleton.mp hx]
      simp
    | cons b t' =>
      have hlen : (a :: b :: t').length - 1 = t'.length + 1 := by simp
      rw [hlen, List.getD_cons_succ]
      rcases List.mem_cons.mp hx with h | h
      · subst h
        have hmem : (b :: t').getD ((b :: t').length - 1) 0 ∈ b :: t' :=
          getD_mem_of_lt (by simp)
        have := List.rel_of_sorted_cons hs _ hmem
        simpa using this
      · have := ih hs.of_cons x h
        simpa using this

/-- Claim C8: `getSalesStats` returns all zeros on the empty list (no
division error), and on a non-empty list the length, the sum of prices, the
arithmetic mean, the minimum, the maximum, and the middle of the sorted
prices (for odd length) or the mean of the two middle prices (for even
length) as median.  `l` is the ascending-sorted arrangement of the prices. -/
theorem getSalesStats_spec (sales : List CleanedSale) (l : List ℚ)
    (hperm : l.Perm (sales.map CleanedSale.sale_price))
    (hsort : l.Sorted (fun a b => a ≤ b)) :
    (sales = [] → getSalesStats sales = ⟨0, 0, 0, 0, 0, 0⟩)
    ∧ (sales ≠ [] →
        (getSalesStats sales).count = sales.length
        ∧ (getSalesStats sales).totalValue = (sales.map CleanedSale.sale_price).sum
        ∧ (getSalesStats sales).averagePrice =
            (sales.map CleanedSale.sale_price).sum / (sales.length : ℚ)
        ∧ (getSalesStats sales).minPrice ∈ sales.map CleanedSale.sale_price
        ∧ (∀ p ∈ sales.map CleanedSale.sale_price, (getSalesStats sales).minPrice ≤ p)
        ∧ (getSalesStats sales).maxPrice ∈ sales.map CleanedSale.sale_price
        ∧ (∀ p ∈ sales.map CleanedSale.sale_price, p ≤ (getSalesStats sales).maxPrice)
        ∧ (getSalesStats sales).medianPrice =
            (if sales.length % 2 = 0 then
              (l.getD (sales.length / 2 - 1) 0 + l.getD (sales.length / 2) 0) / 2
            else l.getD (sales.length / 2) 0)) := by
  have hl : l = List.insertionSort (fun a b => a ≤ b) (sales.map CleanedSale.sale_price) :=
    List.eq_of_perm_of_sorted (hperm.trans (List.perm_insertionSort _ _).symm) hsort
      (List.sorted_insertionSort _ _)
  constructor
  · intro h; subst h; rfl
  · intro hne
    have hne' : sales.isEmpty = false := by
      cases sales with
      | nil => exact absurd rfl hne
      | cons a t => rfl
    have hg : getSalesStats sales =
        ⟨sales.length,
         (List.insertionSort (fun a b => a ≤ b)
            (sales.map CleanedSale.sale_price)).foldl (· + ·) 0,
         (List.insertionSort (fun a b => a ≤ b)
            (sales.map CleanedSale.sale_price)).foldl (· + ·) 0 / (sales.length : ℚ),
         (if (List.insertionSort (fun a b => a ≤ b)
              (sales.map CleanedSale.sale_price)).length % 2 = 0 then
           ((List.insertionSort (fun a b => a ≤ b) (sales.map CleanedSale.sale_price)).getD
              ((List.insertionSort (fun a b => a ≤ b)
                 (sales.map CleanedSale.sale_price)).length / 2 - 1) 0 +
            (List.insertionSort (fun a b => a ≤ b) (sales.map CleanedSale.sale_price)).getD
              ((List.insertionSort (fun a b => a ≤ b)
                 (sales.map CleanedSale.sale_price)).length / 2) 0) / 2
          else
           (List.insertionSort (fun a b => a ≤ b) (sales.map CleanedSale.sale_price)).getD
             ((List.insertionSort (fun a b => a ≤ b)
                (sales.map CleanedSale.sale_price)).length / 2) 0),
         (List.insertionSort (fun a b => a ≤ b) (sales.map CleanedSale.sale_price)).getD 0 0,
         (List.insertionSort (fun a b => a ≤ b) (sales.map CleanedSale.sale_price)).getD
           ((List.insertionSort (fun a b => a ≤ b)
              (sales.map CleanedSale.sale_price)).length - 1) 0⟩ := by
      simp [getSalesStats, hne']
    have hplen : (List.insertionSort (fun a b => a ≤ b)
        (sales.map CleanedSale.sale_price)).length = sales.length := by
      rw [(List.perm_insertionSort _ _).length_eq, List.length_map]
    have hfold : (List.insertionSort (fun a b => a ≤ b)
        (sales.map CleanedSale.sale_price)).foldl (· + ·) 0 =
        (sales.map CleanedSale.sale_price).sum := by
      rw [foldl_add_eq_sum, zero_add, (List.perm_insertionSort _ _).sum_eq]
    have hlpos : 0 < (List.insertionSort (fun a b => a ≤ b)
        (sales.map CleanedSale.sale_price)).length := by
      rw [hplen]
      cases sales with
      | nil => exact absurd rfl hne
      | cons a t => simp
    have hsorted := List.sorted_insertionSort (fun a b => (a : ℚ) ≤ b)
      (sales.map CleanedSale.sale_price)
    have hmemiff : ∀ x : ℚ, x ∈ List.insertionSort (fun a b => a ≤ b)
        (sales.map CleanedSale.sale_price) ↔ x ∈ sales.map CleanedSale.sale_price :=
      fun x => (List.perm_insertionSort _ _).mem_iff
    rw [hg]
    refine ⟨rfl, hfold, by rw [hfold], ?_, ?_, ?_, ?_, ?_⟩
    · exact (hmemiff _).mp (getD_mem_of_lt hlpos)
    · intro p hp
      exact sorted_getD_zero_le hsorted p ((hmemiff p).mpr hp)
    · exact (hmemiff _).mp (getD_mem_of_lt (by omega))
    · intro p hp
      exact sorted_le_getD_last hsorted p ((hmemiff p).mpr hp)
    · rw [hl, hplen]

/-- Cleaned sale priced 100000. -/
def c8a : CleanedSale := { emptyCleaned with sale_price := 100000 }

/-- Cleaned sale priced 200000. -/
def c8b : CleanedSale := { emptyCleaned with sale_price := 200000 }

/-- Cleaned sale priced 300000. -/
def c8c : CleanedSale := { emptyCleaned with sale_price := 300000 }

/-- Witness for C8 at the spec's examples: prices 100000/200000/300000 give
count 3, total 600000, average 200000, median 200000, min 100000 and max
300000; prices 100000/200000 give median 150000; the empty list gives all
zeros. -/
theorem getSalesStats_spec_witness :
    getSalesStats [] = ⟨0, 0, 0, 0, 0, 0⟩
    ∧ (getSalesStats [c8a, c8b, c8c]).count = 3
    ∧ (getSalesStats [c8a, c8b, c8c]).totalValue = 600000
    ∧ (getSalesStats [c8a, c8b, c8c]).averagePrice = 200000
    ∧ (getSalesStats [c8a, c8b, c8c]).medianPrice = 200000
    ∧ (getSalesStats [c8a, c8b, c8c]).minPrice = 100000
    ∧ (getSalesStats [c8a, c8b, c8c]).maxPrice = 300000
    ∧ (getSalesStats [c8a, c8b]).medianPrice = 150000 := by
  have hmap3 : [c8a, c8b, c8c].map CleanedSale.sale_price =
      ([100000, 200000, 300000] : List ℚ) := by decide
  have h3 := (getSalesStats_spec [c8a, c8b, c8c] [100000, 200000, 300000]
    (by rw [hmap3]) (by decide)).2 (by simp)
  obtain ⟨hcount, htot, havg, hminmem, hminbd, hmaxmem, hmaxbd, hmed⟩ := h3
  have hmap2 : [c8a, c8b].map CleanedSale.sale_price = ([100000, 200000] : List ℚ) := by
    decide
  have h2 := (getSalesStats_spec [c8a, c8b] [100000, 200000]
    (by rw [hmap2]) (by decide)).2 (by simp)
  have h0 := (getSalesStats_spec [] [] (by decide) (by decide)).1 rfl
  refine ⟨h0, hcount, ?_, ?_, ?_, ?_, ?_, ?_⟩
  · rw [htot, hmap3]
    norm_num
  · rw [havg, hmap3]
    norm_num
  · rw [hmed]
    norm_num
  · rw [hmap3] at hminmem hminbd
    have hb := hminbd 100000 (by norm_num)
    simp only [List.mem_cons, List.not_mem_nil, or_false] at hminmem
    rcases hminmem with h | h | h
    · exact h
    · rw [h] at hb; norm_num at hb
    · rw [h] at hb; norm_num at hb
  · rw [hmap3] at hmaxmem hmaxbd
    have hb := hmaxbd 300000 (by norm_num)
    simp only [List.mem_cons, List.not_mem_nil, or_false] at hmaxmem
    rcases hmaxmem with h | h | h
    · rw [h] at hb; norm_num at hb
    · rw [h] at hb; norm_num at hb
    · exact h
  · rw [h2.2.2.2.2.2.2.2]
    norm_num

/-! ## Lemmas for claim C9 -/

theorem withRetryFrom_count {α : Type} (fn : Nat → Except Str α)
    (isRetryable : Option (Str → Bool)) :
    ∀ (remaining attempt : Nat),
      (withRetryFrom fn isRetryable attempt remaining).2 ≤ remaining + 1 := by
  intro remaining
  induction remaining with
  | zero => intro attempt; simp [withRetryFrom]
  | succ r ih =>
    intro attempt
    simp only [withRetryFrom]
    cases fn attempt with
    | ok a => simp
    | error e =>
      cases hres : withRetryFrom fn isRetryable (attempt + 1) r with
      | mk res n =>
        have hih := ih (attempt + 1)
        rw [hres] at hih
        simp only at hih
        cases hcond : (match isRetryable with | some f => !f e | none => false) with
        | true =>
          simp only [hcond, if_true]
          omega
        | false =>
          simp only [hcond, Bool.false_eq_true, if_false, hres]
          omega

theorem withRetryFrom_error_stop {α : Type} (fn : Nat → Except Str α) (f : Str → Bool) :
    ∀ (k remaining attempt : Nat) (e : Str), k ≤ remaining →
      (∀ j, j < k → ∃ ej, fn (attempt + j) = .error ej ∧ f ej = true) →
      fn (attempt + k) = .error e → f e = false →
      withRetryFrom fn (some f) attempt remaining = (.error e, k + 1) := by
  intro k
  induction k with
  | zero =>
    intro remaining attempt e _ _ hfn hf
    rw [Nat.add_zero] at hfn
    cases remaining with
    | zero => simp [withRetryFrom, hfn]
    | succ r => simp [withRetryFrom, hfn, hf]
  | succ k ih =>
    intro remaining attempt e hk hprev hfn hf
    cases remaining with
    | zero => omega
    | succ r =>
      obtain ⟨e0, he0, hr0⟩ := hprev 0 (by omega)
      rw [Nat.add_zero] at he0
      have hrec := ih r (attempt + 1) e (by omega)
        (fun j hj => by
          obtain ⟨ej, hej, hrj⟩ := hprev (j + 1) (by omega)
          exact ⟨ej, by rw [← hej]; ring_nf, hrj⟩)
        (by rw [← hfn]; ring_nf)
        hf
      simp [withRetryFrom, he0, hr0, hrec]

theorem withRetryFrom_exhaust {α : Type} (fn : Nat → Except Str α) (f : Str → Bool) :
    ∀ (remaining attempt : Nat) (e : Str),
      (∀ j, j < remaining → ∃ ej, fn (attempt + j) = .error ej ∧ f ej = true) →
      fn (attempt + remaining) = .error e →
      withRetryFrom fn (some f) attempt remaining = (.error e, remaining + 1) := by
  intro remaining
  induction remaining with
  | zero =>
    intro attempt e _ hfn
    rw [Nat.add_zero] at hfn
    simp [withRetryFrom, hfn]
  | succ r ih =>
    intro attempt e hprev hfn
    obtain ⟨e0, he0, hr0⟩ := hprev 0 (by omega)
    rw [Nat.add_zero] at he0
    have hrec := ih (attempt + 1) e
      (fun j hj => by
        obtain ⟨ej, hej, hrj⟩ := hprev (j + 1) (by omega)
        exact ⟨ej, by rw [← hej]; ring_nf, hrj⟩)
      (by rw [← hfn]; ring_nf)
    simp [withRetryFrom, he0, hr0, hrec]

/-- Claim C9: with the `isNetworkRetryable` classifier installed, `withRetry`
invokes the operation at most `maxRetries + 1` times; a non-network error at
any attempt ends the loop immediately (that error propagates, with no
further invocation); and when every attempt fails the last error is
rethrown after `maxRetries + 1` invocations. -/
theorem withRetry_spec {α : Type} (fn : Nat → Except Str α) (maxRetries : Nat) :
    (withRetry fn maxRetries (some isNetworkRetryable)).2 ≤ maxRetries + 1
    ∧ (∀ k e, k ≤ maxRetries →
        (∀ j, j < k → ∃ ej, fn j = .error ej ∧ isNetworkRetryable ej = true) →
        fn k = .error e → isNetworkRetryable e = false →
        withRetry fn maxRetries (some isNetworkRetryable) = (.error e, k + 1))
    ∧ (∀ e, (∀ j, j < maxRetries → ∃ ej, fn j = .error ej ∧ isNetworkRetryable ej = true) →
        fn maxRetries = .error e →
        withRetry fn maxRetries (some isNetworkRetryable) = (.error e, maxRetries + 1)) := by
  refine ⟨withRetryFrom_count fn _ maxRetries 0, ?_, ?_⟩
  · intro k e hk hprev hfn hf
    exact withRetryFrom_error_stop fn isNetworkRetryable k maxRetries 0 e hk
      (fun j hj => by simpa using hprev j hj) (by simpa using hfn) hf
  · intro e hprev hfn
    exact withRetryFrom_exhaust fn isNetworkRetryable maxRetries 0 e
      (fun j hj => by simpa using hprev j hj) (by simpa using hfn)

/-- An operation that fails with a timeout on its first attempt and a parse
error on every later attempt. -/
def c9fn : Nat → Except Str Nat := fun j =>
  if j = 0 then Except.error "timeout of 30000 ms exceeded".data
  else Except.error "parse error".data

/-- Witness for C9: the first attempt fails with a retryable timeout, the
second with a non-network parse error; the loop stops after exactly two
invocations (within the `maxRetries + 1 = 4` budget) and rethrows the parse
error. -/
theorem withRetry_spec_witness :
    withRetry c9fn 3 (some isNetworkRetryable) = (.error "parse error".data, 2)
    ∧ (withRetry c9fn 3 (some isNetworkRetryable)).2 ≤ 4 := by
  constructor
  · refine (withRetry_spec c9fn 3).2.1 1 "parse error".data (by omega) ?_ rfl (by decide)
    intro j hj
    have hj0 : j = 0 := by omega
    subst hj0
    exact ⟨"timeout of 30000 ms exceeded".data, rfl, by decide⟩
  · exact (withRetry_spec c9fn 3).1

/-! ## Claim C7 -/

/-- Counterexample to claim C7 as stated: the empty string's only
comma-segment fails the STATE ZIP pattern, yet the state returned is empty,
not `TN`; and for the comma-less `BRIGHTON TN 38011` the (only) segment does
match STATE ZIP, yet nothing is split off — the whole string is returned as
street with empty city and zip. -/
theorem parseAddress_counterexample :
    parseAddress [] = ⟨[], [], [], []⟩
    ∧ (parseAddress []).state ≠ "TN".data
    ∧ stateZipMatch (trimStr "BRIGHTON TN 38011".data) ≠ none
    ∧ parseAddress "BRIGHTON TN 38011".data =
        ⟨"BRIGHTON TN 38011".data, [], "TN".data, []⟩
    ∧ (parseAddress "BRIGHTON TN 38011".data).zip = [] := by
  refine ⟨by decide, by decide, by decide, by decide, by decide⟩

/-- Claim C7 (amended): for every full-address string with at least two
comma-separated segments, when the last (trimmed) segment does not match the
STATE ZIP pattern `parseAddress` returns the second segment as the city with
state `TN` and empty zip; when it does match, the state (uppercased) and zip
come from the match and the city is split off — the middle segments joined
when there are more than two, otherwise the remainder of the last segment
with the matched text removed. -/
theorem parseAddress_spec (fullAddress : Str)
    (h2 : 2 ≤ ((splitOnChar ',' fullAddress).map trimStr).length) :
    (stateZipMatch (((splitOnChar ',' fullAddress).map trimStr).getLastD []) = none →
      parseAddress fullAddress =
        ⟨((splitOnChar ',' fullAddress).map trimStr).headD [],
         ((splitOnChar ',' fullAddress).map trimStr).getD 1 [], "TN".data, []⟩)
    ∧ (∀ matched st zp,
        stateZipMatch (((splitOnChar ',' fullAddress).map trimStr).getLastD []) =
          some (matched, st, zp) →
        parseAddress fullAddress =
          ⟨((splitOnChar ',' fullAddress).map trimStr).headD [],
           if 2 < ((splitOnChar ',' fullAddress).map trimStr).length then
             joinCommaSpace (((splitOnChar ',' fullAddress).map trimStr).drop 1).dropLast
           else
             trimStr (removeFirst matched
               (((splitOnChar ',' fullAddress).map trimStr).getLastD [])),
           toUpperStr st, zp⟩) := by
  have hne : fullAddress ≠ [] := by
    intro h
    subst h
    simp [splitOnChar] at h2
  have hie : fullAddress.isEmpty = false := by
    cases fullAddress with
    | nil => exact absurd rfl hne
    | cons a t => rfl
  have h1lt : 1 < ((splitOnChar ',' fullAddress).map trimStr).length := h2
  constructor
  · intro hm
    simp only [parseAddress, hie, Bool.false_eq_true, if_false, if_pos h2, hm,
      if_pos h1lt]
  · intro matched st zp hm
    simp only [parseAddress, hie, Bool.false_eq_true, if_false, if_pos h2, hm]

/-- Witness for C7: a three-segment address with a matching `ST ZIP` tail is
fully split, and a two-segment address without one falls back to
second-segment city, state `TN`, empty zip. -/
theorem parseAddress_spec_witness :
    parseAddress "123 MAIN ST, COVINGTON, TN 38019".data =
      ⟨"123 MAIN ST".data, "COVINGTON".data, "TN".data, "38019".data⟩
    ∧ parseAddress "123 MAIN ST, APT 5".data =
      ⟨"123 MAIN ST".data, "APT 5".data, "TN".data, []⟩ := by
  constructor
  · exact ((parseAddress_spec "123 MAIN ST, COVINGTON, TN 38019".data (by decide)).2
      "TN 38019".data "TN".data "38019".data (by decide)).trans (by decide)
  · exact ((parseAddress_spec "123 MAIN ST, APT 5".data (by decide)).1
      (by decide)).trans (by decide)

/-! ## Claim C1 -/

theorem enrichSales_eq (details : ParcelDetails) (dateRange : DateRange)
    (l : List SaleRecord) :
    enrichSales details dateRange l =
      (l.filter fun sale =>
        isSaleInDateRange sale.sale_date dateRange.start dateRange.stop).map
        (parcelDetailsToRawRecord details) := by
  induction l with
  | nil => rfl
  | cons sale rest ih =>
    simp only [enrichSales, List.filter_cons]
    cases h : isSaleInDateRange sale.sale_date dateRange.start dateRange.stop <;>
      simp [h, ih]

/-- The week of Monday 2025-01-06 through Sunday 2025-01-12. -/
def c1Range : DateRange :=
  ⟨daysFromCivil 2025 1 6 * msPerDay, daysFromCivil 2025 1 12 * msPerDay + 86399999, []⟩

/-- Search-result stub for parcel `A`. -/
def c1StubA : RawParcelRecord := { emptyRaw with parcel_id := "A".data }

/-- Search-result stub for parcel `B`. -/
def c1StubB : RawParcelRecord := { emptyRaw with parcel_id := "B".data }

/-- A detail-page sale dated before the requested week. -/
def c1SaleOut : SaleRecord := ⟨"1/1/2025".data, "100".data, [], [], [], [], []⟩

/-- A detail-page sale inside the requested week. -/
def c1SaleIn : SaleRecord :=
  ⟨"1/8/2025".data, "$250,000".data, "WD".data, [], [], "A".data, []⟩

/-- Details for parcel `A`: fetched fine, one sale, none in range. -/
def c1DetailsA : ParcelDetails :=
  ⟨"A".data, [], [], [], [], [], [], [], [c1SaleOut], "urlA".data⟩

/-- Details for parcel `B`: one in-range sale. -/
def c1DetailsB : ParcelDetails :=
  ⟨"B".data, [], [], [], [], [], [], [], [c1SaleIn], "urlB".data⟩

/-- The collected stubs of the run. -/
def c1All : List RawParcelRecord := [c1StubA, c1StubB]

/-- Fetch outcomes for the two parcels. -/
def c1Entries : List (Str × Option ParcelDetails) :=
  [("A".data, some c1DetailsA), ("B".data, some c1DetailsB)]

/-- Counterexample to claim C1 as stated: parcel `A`'s fetch succeeded with
a non-empty sale list none of which is in range, so it is neither the
"in-range sales" case nor the "no sales at all" case nor a fetch failure —
the claim's else branch would emit `A`'s stub unchanged, but the code emits
nothing for `A`, and since parcel `B` produced an enriched record the final
set is just `B`'s record with `A`'s stub silently dropped. -/
theorem extract_reconcile_counterexample :
    0 < c1DetailsA.sales.length
    ∧ (c1DetailsA.sales.filter fun sale =>
        isSaleInDateRange sale.sale_date c1Range.start c1Range.stop) = []
    ∧ emitForParcel c1Range c1All ("A".data, some c1DetailsA) = []
    ∧ c1StubA ∈ c1All
    ∧ extractFinalRecords c1Range c1All c1Entries =
        [parcelDetailsToRawRecord c1DetailsB c1SaleIn]
    ∧ c1StubA ∉ extractFinalRecords c1Range c1All c1Entries := by
  refine ⟨by decide, by decide, by decide, by decide, by decide, by decide⟩

/-- Claim C1 (amended): per parcel, when the fetched details hold at least
one sale, exactly one enriched record is emitted per in-range sale (carrying
that sale's price, deed instrument and qualification) — in particular
nothing at all when no sale is in range; when the details hold no sales, the
stub is emitted with `source_url` replaced by the resolved detail URL; when
the fetch failed, the stub is emitted unchanged; the run's record set is the
concatenation of the per-parcel emissions when that is non-empty, otherwise
the original stub set. -/
theorem extract_reconcile_spec (dateRange : DateRange) (allResults : List RawParcelRecord)
    (entries : List (Str × Option ParcelDetails)) :
    (∀ parcelId details, details.sales ≠ [] →
      emitForParcel dateRange allResults (parcelId, some details) =
        (details.sales.filter fun sale =>
          isSaleInDateRange sale.sale_date dateRange.start dateRange.stop).map
          (parcelDetailsToRawRecord details))
    ∧ (∀ details sale,
        (parcelDetailsToRawRecord details sale).sale_price = sale.sale_price
        ∧ (parcelDetailsToRawRecord details sale).deed_instrument = sale.deed_instrument
        ∧ (parcelDetailsToRawRecord details sale).qualified_sale = sale.qualified_sale)
    ∧ (∀ parcelId details originalRecord, details.sales = [] →
        allResults.find? (fun r => r.parcel_id == parcelId) = some originalRecord →
        emitForParcel dateRange allResults (parcelId, some details) =
          [{ originalRecord with source_url := details.source_url }])
    ∧ (∀ parcelId originalRecord,
        allResults.find? (fun r => r.parcel_id == parcelId) = some originalRecord →
        emitForParcel dateRange allResults (parcelId, none) = [originalRecord])
    ∧ reconcileParcels dateRange allResults entries =
        (entries.map (emitForParcel dateRange allResults)).flatten
    ∧ extractFinalRecords dateRange allResults entries =
        (if reconcileParcels dateRange allResults entries = [] then allResults
         else reconcileParcels dateRange allResults entries) := by
  refine ⟨?_, ?_, ?_, ?_, ?_, ?_⟩
  · intro parcelId details hne
    have hlen : 0 < details.sales.length := by
      cases h : details.sales with
      | nil => exact absurd h hne
      | cons a t => simp [h]
    simp only [emitForParcel, if_pos hlen]
    exact enrichSales_eq details dateRange details.sales
  · intro details sale
    exact ⟨rfl, rfl, rfl⟩
  · intro parcelId details originalRecord hempty hfind
    have hlen : ¬ 0 < details.sales.length := by simp [hempty]
    simp only [emitForParcel, if_neg hlen, hfind]
  · intro parcelId originalRecord hfind
    simp only [emitForParcel, hfind]
  · induction entries with
    | nil => rfl
    | cons e rest ih => simp [reconcileParcels, ih]
  · unfold extractFinalRecords
    cases h : reconcileParcels dateRange allResults entries with
    | nil => simp
    | cons a t => simp

/-- Details as for parcel `A` but with an empty sale history. -/
def c1DetailsNoSales : ParcelDetails :=
  ⟨"A".data, [], [], [], [], [], [], [], [], "urlA".data⟩

/-- Witness for C1: parcel `B` emits exactly its one in-range enriched
record carrying the sale's fields; a no-sales fetch for `A` falls back to
the stub with the resolved URL; a failed fetch for `A` falls back to the
stub unchanged. -/
theorem extract_reconcile_spec_witness :
    emitForParcel c1Range c1All ("B".data, some c1DetailsB) =
      [parcelDetailsToRawRecord c1DetailsB c1SaleIn]
    ∧ (parcelDetailsToRawRecord c1DetailsB c1SaleIn).sale_price = "$250,000".data
    ∧ emitForParcel c1Range c1All ("A".data, some c1DetailsNoSales) =
      [{ c1StubA with source_url := "urlA".data }]
    ∧ emitForParcel c1Range c1All ("A".data, none) = [c1StubA] := by
  refine ⟨?_, ?_, ?_, ?_⟩
  · exact ((extract_reconcile_spec c1Range c1All c1Entries).1 "B".data c1DetailsB
      (by decide)).trans (by decide)
  · exact ((extract_reconcile_spec c1Range c1All c1Entries).2.1 c1DetailsB c1SaleIn).1
  · exact (extract_reconcile_spec c1Range c1All c1Entries).2.2.1 "A".data c1DetailsNoSales
      c1StubA (by decide) (by decide)
  · exact (extract_reconcile_spec c1Range c1All c1Entries).2.2.2.1 "A".data c1StubA
      (by decide)
